import Mathlib

/-!
Shallow embedding of the offline recommendation pipeline of the
`recommend-system` repository (src/config/settings.py, src/core/dataloader.py,
src/core/engine.py, src/main.py) together with theorems settling the claims
about it.

Modelling conventions:
* Python floats are modelled by exact rationals `ℚ`; the fractional
  day offset of an interaction event is modelled by a whole number of days
  (the aggregation and ordering facts proved below do not depend on the
  exponent's domain).
* Python dictionaries are modelled by association lists looked up
  front-to-back (`alookup`), exactly matching insertion/overwrite semantics
  of `dict`; `enumerate` is `enumFromN`.
* `pandas` bulk operations are modelled by their documented semantics on the
  list of rows: `groupby` sorts group keys ascending and aggregates,
  multi-column `sort_values` is a stable lexicographic sort (numpy
  `lexsort`), single-column `sort_values(ascending=False)` reverses the
  ascending argsort, `Series.unique` keeps first occurrences.
* The Redis pipeline of `save_results_to_redis` is a sequential fold of the
  issued commands over a key/value store state.
-/

namespace RecSys

/-- Configuration constants from `src/config/settings.py` (class Settings). -/
def REC_HISTORY_COUNT : ℕ := 4

/-- Settings.REC_DISCOVERY_COUNT from `src/config/settings.py`. -/
def REC_DISCOVERY_COUNT : ℕ := 8

/-- Settings.REC_RELATED_COUNT from `src/config/settings.py`. -/
def REC_RELATED_COUNT : ℕ := 5

/-- Settings.REDIS_EXPIRE_SECONDS from `src/config/settings.py`. -/
def REDIS_EXPIRE_SECONDS : ℕ := 86400

/-- Settings.TIME_DECAY_WINDOW from `src/config/settings.py`. -/
def TIME_DECAY_WINDOW : ℕ := 180

/-- Settings.TIME_DECAY_RATE = 0.95 from `src/config/settings.py`. -/
def TIME_DECAY_RATE : ℚ := 19 / 20

/-- One row of the `pre_browser_histories` table as read by
`DataLoader.load_and_process`; `daysDiff` is the age of the visit in days
(the code computes this from `visited_at`), `deleted` records whether
`deleted_at` is non-null. -/
structure RawRow where
  user_id : ℕ
  object_id : ℕ
  daysDiff : ℕ
  deleted : Bool
deriving DecidableEq, Repr

/-- The SQL filter of `load_and_process`: rows where `deleted_at IS NULL`
and `visited_at >= DATE_SUB(NOW(), INTERVAL :days DAY)`. -/
def queryFilter (t : List RawRow) : List RawRow :=
  t.filter (fun r => !r.deleted && decide (r.daysDiff ≤ TIME_DECAY_WINDOW))

/-- Per-event decay weight: `df['weight'] = settings.TIME_DECAY_RATE ** df['days_diff']`. -/
def eventWeight (r : RawRow) : ℚ := TIME_DECAY_RATE ^ r.daysDiff

/-- One row of the aggregated dataframe `df_grouped` (`user_id`, `object_id`, `score`). -/
structure ScoreEntry where
  user_id : ℕ
  object_id : ℕ
  score : ℚ
deriving DecidableEq, Repr

/-- The (user_id, object_id) key of a raw row. -/
def pairKey (r : RawRow) : ℕ × ℕ := (r.user_id, r.object_id)

/-- First-occurrence deduplication, the semantics of `pandas.Series.unique`. -/
def uniqFirst {α} [DecidableEq α] : List α → List α
  | [] => []
  | x :: xs => x :: (uniqFirst xs).filter (fun y => decide (y ≠ x))

/-- Non-strict lexicographic order on (user_id, object_id) keys; `groupby`
sorts its group keys ascending with respect to this order. -/
def leLexNat (p q : ℕ × ℕ) : Prop := p.1 < q.1 ∨ (p.1 = q.1 ∧ p.2 ≤ q.2)

instance : DecidableRel leLexNat := fun p q => by
  unfold leLexNat; infer_instance

instance : IsTotal (ℕ × ℕ) leLexNat := ⟨by intro a b; unfold leLexNat; omega⟩

instance : IsTrans (ℕ × ℕ) leLexNat := ⟨by intro a b c; unfold leLexNat; omega⟩

instance : IsAntisymm (ℕ × ℕ) leLexNat :=
  ⟨by intro a b h h'; unfold leLexNat at *; obtain ⟨x, y⟩ := a; obtain ⟨z, w⟩ := b; simp_all; omega⟩

/-- Group keys of `df.groupby(['user_id', 'object_id'])`: the distinct
(user, item) pairs, sorted ascending. -/
def groupKeys (df : List RawRow) : List (ℕ × ℕ) :=
  List.insertionSort leLexNat (uniqFirst (df.map pairKey))

/-- Aggregated score of one (user, item) pair: the sum of the decay weights
of exactly that pair's rows (`groupby(...)['weight'].sum()`). -/
def pairScore (df : List RawRow) (p : ℕ × ℕ) : ℚ :=
  ((df.filter (fun r => decide (pairKey r = p))).map eventWeight).sum

/-- The aggregated dataframe `df_grouped`: one `ScoreEntry` per distinct
(user, item) pair, keys in `groupby` order (ascending), score the summed
weight. -/
def dfGrouped (df : List RawRow) : List ScoreEntry :=
  (groupKeys df).map (fun p => ⟨p.1, p.2, pairScore df p⟩)

/-- Embeds `df_grouped['user_id'].unique()` — distinct user ids in first-occurrence order. -/
def uniqueUsers (dfg : List ScoreEntry) : List ℕ := uniqFirst (dfg.map (·.user_id))

/-- Embeds `df_grouped['object_id'].unique()` — distinct item ids in first-occurrence order. -/
def uniqueItems (dfg : List ScoreEntry) : List ℕ := uniqFirst (dfg.map (·.object_id))

/-- Python `enumerate(xs)` starting at `n`, as (index, value) pairs. -/
def enumFromN (n : ℕ) : List ℕ → List (ℕ × ℕ)
  | [] => []
  | x :: xs => (n, x) :: enumFromN (n + 1) xs

/-- First-match association-list lookup: the semantics of looking up a key
in a Python dict built by inserting the pairs front-to-back is realised by
building the list so that the authoritative pair comes first. -/
def alookup : List (ℕ × ℕ) → ℕ → Option ℕ
  | [], _ => none
  | p :: ps, k => if p.1 = k then some p.2 else alookup ps k

/-- Embeds `self.user_id_to_idx = {uid: i for i, uid in enumerate(unique_users)}`. -/
def user_id_to_idx (dfg : List ScoreEntry) : List (ℕ × ℕ) :=
  (enumFromN 0 (uniqueUsers dfg)).map (fun p => (p.2, p.1))

/-- Embeds `self.item_id_to_idx = {iid: i for i, iid in enumerate(unique_items)}`. -/
def item_id_to_idx (dfg : List ScoreEntry) : List (ℕ × ℕ) :=
  (enumFromN 0 (uniqueItems dfg)).map (fun p => (p.2, p.1))

/-- Embeds `self.user_idx_to_id = {i: uid for i, uid in enumerate(unique_users)}`. -/
def user_idx_to_id (dfg : List ScoreEntry) : List (ℕ × ℕ) :=
  enumFromN 0 (uniqueUsers dfg)

/-- Embeds `self.item_idx_to_id = {i: iid for i, iid in enumerate(unique_items)}`. -/
def item_idx_to_id (dfg : List ScoreEntry) : List (ℕ × ℕ) :=
  enumFromN 0 (uniqueItems dfg)

/-- Sparse CSR user-item matrix: shape plus the (row, col, value) triples it
was constructed from (`scipy.sparse.csr_matrix((scores, (users_indices,
items_indices)), shape=(len(unique_users), len(unique_items)))`). -/
structure Csr where
  rows : ℕ
  cols : ℕ
  entries : List (ℕ × ℕ × ℚ)
deriving DecidableEq, Repr

/-- The value of a CSR matrix at position (i, j): the sum of the stored
triples at that position (scipy sums duplicate coordinates). -/
def Csr.entry (m : Csr) (i j : ℕ) : ℚ :=
  ((m.entries.filter (fun e => decide (e.1 = i ∧ e.2.1 = j))).map (fun e => e.2.2)).sum

/-- Matrix construction step of `load_and_process`: map each aggregated row's
ids through the index dictionaries and store the score at that coordinate. -/
def buildMatrix (dfg : List ScoreEntry) : Csr :=
  { rows := (uniqueUsers dfg).length
    cols := (uniqueItems dfg).length
    entries := dfg.map (fun s =>
      ((alookup (user_id_to_idx dfg) s.user_id).getD 0,
       (alookup (item_id_to_idx dfg) s.object_id).getD 0,
       s.score)) }

/-- Embeds `DataLoader.load_and_process`: filter, decay-weight and aggregate the
raw rows, build the index maps and the sparse matrix; on an empty filtered
frame return an empty dataframe and a 0x0 matrix. -/
def load_and_process (t : List RawRow) : List ScoreEntry × Csr :=
  let df := queryFilter t
  if df = [] then ([], ⟨0, 0, []⟩)
  else (dfGrouped df, buildMatrix (dfGrouped df))

/-- The aggregated dataframe produced by a run on raw table `t`. -/
def aggregated (t : List RawRow) : List ScoreEntry := dfGrouped (queryFilter t)

/-- Sort key of `sort_values(['user_id', 'score'], ascending=[True, False])`:
user ascending, then score descending. Multi-column `sort_values` is a
stable lexicographic sort with respect to this preorder. -/
def leUserScore (a b : ScoreEntry) : Prop :=
  a.user_id < b.user_id ∨ (a.user_id = b.user_id ∧ b.score ≤ a.score)

instance : DecidableRel leUserScore := fun a b => by
  unfold leUserScore; infer_instance

instance : IsTotal ScoreEntry leUserScore := by
  refine ⟨fun a b => ?_⟩
  unfold leUserScore
  rcases Nat.lt_trichotomy a.user_id b.user_id with h | h | h
  · exact Or.inl (Or.inl h)
  · rcases le_total b.score a.score with h' | h'
    · exact Or.inl (Or.inr ⟨h, h'⟩)
    · exact Or.inr (Or.inr ⟨h.symm, h'⟩)
  · exact Or.inr (Or.inl h)

instance : IsTrans ScoreEntry leUserScore := by
  refine ⟨fun a b c hab hbc => ?_⟩
  unfold leUserScore at *
  rcases hab with h1 | ⟨h1, h1'⟩ <;> rcases hbc with h2 | ⟨h2, h2'⟩
  · exact Or.inl (h1.trans h2)
  · exact Or.inl (h2 ▸ h1)
  · exact Or.inl (h1 ▸ h2)
  · exact Or.inr ⟨h1.trans h2, h2'.trans h1'⟩

/-- Embeds `sorted_df = history_df.sort_values(['user_id', 'score'], ascending=[True, False])`
in `RecommendationEngine.__init__`, as a stable sort. -/
def sortedDf (dfg : List ScoreEntry) : List ScoreEntry :=
  List.insertionSort leUserScore dfg

/-- Embeds `self.user_history_index = sorted_df.groupby('user_id')['object_id'].apply(list).to_dict()`
read at key `u` with default `[]` (`dict.get(user_id, [])`): `groupby`
preserves the within-group order of `sorted_df`. -/
def userHistoryIndex (dfg : List ScoreEntry) (u : ℕ) : List ℕ :=
  ((sortedDf dfg).filter (fun e => decide (e.user_id = u))).map (·.object_id)

/-- Ascending-by-value sort key used on the popularity totals; pandas
`Series.sort_values(ascending=False)` reverses the ascending argsort. -/
def leTotalAsc (a b : ℕ × ℚ) : Prop := a.2 ≤ b.2

instance : DecidableRel leTotalAsc := fun a b => by
  unfold leTotalAsc; infer_instance

instance : IsTotal (ℕ × ℚ) leTotalAsc := ⟨fun a b => le_total a.2 b.2⟩

instance : IsTrans (ℕ × ℚ) leTotalAsc := ⟨fun _ _ _ h h' => le_trans h h'⟩

/-- Embeds `history_df.groupby('object_id')['score'].sum()`: one (item, total score)
pair per distinct item, keys ascending. -/
def itemTotals (dfg : List ScoreEntry) : List (ℕ × ℚ) :=
  (List.insertionSort (fun a b : ℕ => a ≤ b) (uniqueItems dfg)).map
    (fun i => (i, ((dfg.filter (fun e => decide (e.object_id = i))).map (·.score)).sum))

/-- Admissibility of a realisation of `Series.sort_values(ascending=False)`
on the totals: pandas computes numpy's default quicksort argsort and
reverses it. That argsort is deterministic for a given input but its order
among equal values is unspecified (it is only stable below numpy's
small-array insertion-sort cutoff), so the source guarantees exactly that
the result is a permutation of the totals with values descending; the
embedding is therefore parametrised by the sort realisation `srt`,
constrained to this guarantee. -/
def IsDescValueSort (srt : List (ℕ × ℚ) → List (ℕ × ℚ)) : Prop :=
  ∀ l : List (ℕ × ℚ), (srt l).Perm l ∧ (srt l).Pairwise (fun a b => b.2 ≤ a.2)

/-- The realisation numpy produces below its insertion-sort cutoff, where
its quicksort argsort is stable and pandas reverses it; the deterministic
stand-in used to evaluate concrete small runs. -/
def npSmallSortDesc (l : List (ℕ × ℚ)) : List (ℕ × ℚ) :=
  (List.insertionSort leTotalAsc l).reverse

/-- Embeds `popular_series = ....sort_values(ascending=False)` as (item, total)
pairs, parametrised by the argsort realisation `srt` (see `IsDescValueSort`). -/
def popularPairs (srt : List (ℕ × ℚ) → List (ℕ × ℚ)) (dfg : List ScoreEntry) :
    List (ℕ × ℚ) :=
  srt (itemTotals dfg)

/-- Embeds `self.popular_items = popular_series.index.tolist()` in
`RecommendationEngine.__init__`. -/
def popularItems (srt : List (ℕ × ℚ) → List (ℕ × ℚ)) (dfg : List ScoreEntry) :
    List ℕ :=
  (popularPairs srt dfg).map (·.1)

/-- State of `RecommendationEngine`. The learned ALS factor matrices are
carried as data set by `train` (the numerical fitting itself is external to
the repository); `itemIdMapCache` models the lazily created
`self._item_id_map_cache` attribute (`none` = attribute not yet set). -/
structure Engine where
  user_map : List (ℕ × ℕ)
  item_inv_map : List (ℕ × ℕ)
  history_df : List ScoreEntry
  is_trained : Bool
  user_items_matrix : Option Csr
  userFactors : List (List ℚ)
  itemFactors : List (List ℚ)
  itemIdMapCache : Option (List (ℕ × ℕ))
deriving DecidableEq

/-- Embeds `RecommendationEngine.__init__(user_map, item_inv_map, history_df)`. -/
def Engine.init (um iim : List (ℕ × ℕ)) (dfg : List ScoreEntry) : Engine :=
  { user_map := um
    item_inv_map := iim
    history_df := dfg
    is_trained := false
    user_items_matrix := none
    userFactors := []
    itemFactors := []
    itemIdMapCache := none }

/-- Embeds `RecommendationEngine.train`: store the matrix, fit the ALS model
(producing the factor matrices), set `is_trained`. -/
def Engine.train (e : Engine) (m : Csr) (uF iF : List (List ℚ)) : Engine :=
  { e with
    user_items_matrix := some m
    is_trained := true
    userFactors := uF
    itemFactors := iF }

/-- Embeds `RecommendationEngine.get_history_rec`: O(1) dictionary read truncated
to `settings.REC_HISTORY_COUNT`. -/
def Engine.get_history_rec (e : Engine) (u : ℕ) : List ℕ :=
  (userHistoryIndex e.history_df u).take REC_HISTORY_COUNT

/-- Embeds `RecommendationEngine.get_popular_items`, parametrised by the
argsort realisation `srt` of the popularity sort. -/
def Engine.get_popular_items (srt : List (ℕ × ℚ) → List (ℕ × ℚ)) (e : Engine)
    (limit : ℕ) : List ℕ :=
  (popularItems srt e.history_df).take limit

/-- Dot product of two factor vectors. -/
def dotQ (v w : List ℚ) : ℚ := (List.zipWith (fun a b => a * b) v w).sum

/-- Score-descending, index-ascending comparison used to rank candidates. -/
def leScoreDesc (a b : ℕ × ℚ) : Prop := b.2 < a.2 ∨ (a.2 = b.2 ∧ a.1 ≤ b.1)

instance : DecidableRel leScoreDesc := fun a b => by
  unfold leScoreDesc; infer_instance

/-- Modelled from the spec: the `implicit` library's
`AlternatingLeastSquares.recommend` (not part of this repository). Per the
spec it scores every item by the dot product of the user's factor vector
with the item's factor vector, with `filter_already_liked_items=True`
excludes the items with a nonzero value in the user's matrix row, ranks by
score descending and returns the top `N` item indices. -/
def modelRecommend (iF : List (List ℚ)) (uvec : List ℚ) (row : ℕ → ℚ)
    (N : ℕ) (filterLiked : Bool) : List ℕ :=
  let cands := (List.range iF.length).filter
    (fun j => !filterLiked || decide (row j = 0))
  let scored := cands.map (fun j => (j, dotQ uvec (iF.getD j [])))
  ((List.insertionSort leScoreDesc scored).map (·.1)).take N

/-- Run a Python list comprehension of dictionary lookups under the
surrounding `try`: `none` models the `KeyError` path (the caller returns `[]`). -/
def optMapAll (f : ℕ → Option ℕ) : List ℕ → Option (List ℕ)
  | [] => some []
  | x :: xs =>
    match f x, optMapAll f xs with
    | some y, some ys => some (y :: ys)
    | _, _ => none

/-- Embeds `RecommendationEngine.get_discovery_rec`: requires a trained model and a
known user, calls `model.recommend` on the user's stored matrix row with
`filter_already_liked_items=True`, then maps matrix indices back to item ids
(`[self.item_inv_map[idx] for idx in ids]`); any exception yields `[]`. -/
def Engine.get_discovery_rec (e : Engine) (u : ℕ) : List ℕ :=
  match e.is_trained, alookup e.user_map u, e.user_items_matrix with
  | true, some uidx, some m =>
    let ids := modelRecommend e.itemFactors (e.userFactors.getD uidx [])
      (fun j => m.entry uidx j) REC_DISCOVERY_COUNT true
    (optMapAll (fun j => alookup e.item_inv_map j) ids).getD []
  | _, _, _ => []

/-- The dict comprehension `{v: k for k, v in self.item_inv_map.items()}`:
on duplicate values the last insertion wins, so the reversed swapped list
looked up front-to-back realises it. -/
def invertMap (m : List (ℕ × ℕ)) : List (ℕ × ℕ) :=
  (m.map (fun p => (p.2, p.1))).reverse

/-- Modelled from the spec: the `implicit` library's `similar_items` (not
part of this repository). Per the spec it scores every item index by the dot
product of the given item's factor vector with that item's factor vector,
ranks descending and returns the top `N` indices (typically including the
item itself). -/
def modelSimilarItems (iF : List (List ℚ)) (itemIdx N : ℕ) : List ℕ :=
  let scored := (List.range iF.length).map
    (fun j => (j, dotQ (iF.getD itemIdx []) (iF.getD j [])))
  ((List.insertionSort leScoreDesc scored).map (·.1)).take N

/-- Embeds `RecommendationEngine.get_related_items`: returns the possibly updated
engine (the lazily built `_item_id_map_cache`) together with the result
list. Mirrors the source: untrained returns `[]` before touching the cache;
then the reverse item map is built on first use; unknown item ids return
`[]`; otherwise `similar_items` is called with `N = REC_RELATED_COUNT + 1`,
the item itself is filtered out, indices are mapped back to ids and the
list is truncated to `REC_RELATED_COUNT`; any exception yields `[]`. -/
def Engine.get_related_items (e : Engine) (item_id : ℕ) : Engine × List ℕ :=
  if e.is_trained = false then (e, [])
  else
    let cache := e.itemIdMapCache.getD (invertMap e.item_inv_map)
    let e' := { e with itemIdMapCache := some cache }
    match alookup cache item_id with
    | none => (e', [])
    | some itemIdx =>
      let ids := modelSimilarItems e.itemFactors itemIdx (REC_RELATED_COUNT + 1)
      match optMapAll (fun j => alookup e.item_inv_map j)
          (ids.filter (fun j => decide (j ≠ itemIdx))) with
      | some recs => (e', recs.take REC_RELATED_COUNT)
      | none => (e', [])

/-- The engine as wired up and trained in `main()`:
`RecommendationEngine(user_map=loader.user_id_to_idx,
item_inv_map=loader.item_idx_to_id, history_df=df_grouped)` followed by
`engine.train(sparse_matrix)`. The ALS factor matrices are parametrised by
`uF`/`iF` (one factor vector per matrix row/column index). -/
def pipelineEngine (t : List RawRow) (uF iF : ℕ → List ℚ) : Engine :=
  let p := load_and_process t
  (Engine.init (user_id_to_idx p.1) (item_idx_to_id p.1) p.1).train p.2
    ((List.range p.2.rows).map uF) ((List.range p.2.cols).map iF)

/-- The Redis keys written or read by this system. The string rendering is
`rec:sys:user:{uid}:history`, `rec:sys:user:{uid}:discovery`,
`rec:sys:item:{iid}:related` and `rec:sys:global:popular`; distinct
constructor applications render to distinct strings, so the constructors
are the keys. -/
inductive RedisKey
  | userHistory (uid : ℕ)
  | userDiscovery (uid : ℕ)
  | itemRelated (iid : ℕ)
  | globalPopular
deriving DecidableEq, Repr

/-- Redis state restricted to list-typed keys: stored list plus optional
time-to-live (`none` = no expiration set). -/
def Cache : Type := RedisKey → Option (List ℕ × Option ℕ)

/-- Redis `DEL key`. -/
def cmdDel (c : Cache) (k : RedisKey) : Cache :=
  fun k' => if k' = k then none else c k'

/-- Redis `RPUSH key v...`: appends to an existing list (keeping its
time-to-live) or creates the key with no time-to-live. -/
def cmdRpush (c : Cache) (k : RedisKey) (vs : List ℕ) : Cache :=
  fun k' =>
    if k' = k then
      match c k with
      | some lt => some (lt.1 ++ vs, lt.2)
      | none => some (vs, none)
    else c k'

/-- Redis `EXPIRE key seconds`: sets the time-to-live of an existing key. -/
def cmdExpire (c : Cache) (k : RedisKey) (secs : ℕ) : Cache :=
  fun k' => if k' = k then (c k).map (fun lt => (lt.1, some secs)) else c k'

/-- Per-user recommendation record (`{"history": ..., "discovery": ...}`)
built in step 3 of `main()`. -/
structure UserRecs where
  history : List ℕ
  discovery : List ℕ
deriving DecidableEq, Repr

/-- The pipelined commands issued for one user in `save_results_to_redis`:
delete the history key, push and expire if non-empty; same for discovery. -/
def saveUserBlock (c : Cache) (p : ℕ × UserRecs) : Cache :=
  let c1 := cmdDel c (RedisKey.userHistory p.1)
  let c2 :=
    if p.2.history = [] then c1
    else cmdExpire (cmdRpush c1 (RedisKey.userHistory p.1) p.2.history)
      (RedisKey.userHistory p.1) REDIS_EXPIRE_SECONDS
  let c3 := cmdDel c2 (RedisKey.userDiscovery p.1)
  if p.2.discovery = [] then c3
  else cmdExpire (cmdRpush c3 (RedisKey.userDiscovery p.1) p.2.discovery)
    (RedisKey.userDiscovery p.1) REDIS_EXPIRE_SECONDS

/-- The pipelined commands issued for one item in `save_results_to_redis`. -/
def saveItemBlock (c : Cache) (p : ℕ × List ℕ) : Cache :=
  let c1 := cmdDel c (RedisKey.itemRelated p.1)
  if p.2 = [] then c1
  else cmdExpire (cmdRpush c1 (RedisKey.itemRelated p.1) p.2)
    (RedisKey.itemRelated p.1) REDIS_EXPIRE_SECONDS

/-- Embeds `save_results_to_redis(user_recs, item_recs)` from `src/main.py`: all
user blocks then all item blocks, executed sequentially by the pipeline. -/
def save_results_to_redis (c : Cache) (user_recs : List (ℕ × UserRecs))
    (item_recs : List (ℕ × List ℕ)) : Cache :=
  item_recs.foldl saveItemBlock (user_recs.foldl saveUserBlock c)

/-- Outcome of one batch run: either the process exited with status 1
before training and publishing (`aborted`), or it completed and left the
cache in the recorded state. -/
inductive RunResult
  | aborted
  | completed (finalCache : Cache)

/-- Embeds `main()` from `src/main.py`: load and process, abort when the matrix
has zero rows, otherwise construct and train the engine, compute the three
recommendation kinds for every active user and item (threading the engine
state through `get_related_items`) and publish to Redis. -/
def mainRun (t : List RawRow) (uF iF : ℕ → List ℚ) (c : Cache) : RunResult :=
  let p := load_and_process t
  if p.2.rows = 0 then RunResult.aborted
  else
    let e := pipelineEngine t uF iF
    let userRecs := (uniqueUsers p.1).map
      (fun uid => (uid, UserRecs.mk (e.get_history_rec uid) (e.get_discovery_rec uid)))
    let itemStep := fun (acc : Engine × List (ℕ × List ℕ)) iid =>
      let r := acc.1.get_related_items iid
      (r.1, acc.2 ++ [(iid, r.2)])
    let itemRecs := ((uniqueItems p.1).foldl itemStep (e, [])).2
    RunResult.completed (save_results_to_redis c userRecs itemRecs)

/-- The per-user slice of the stably sorted aggregated dataframe; the user
history index stores exactly its item-id column. -/
def userSortedEntries (dfg : List ScoreEntry) (u : ℕ) : List ScoreEntry :=
  (sortedDf dfg).filter (fun e => decide (e.user_id = u))

/-- The item ids of user `u`'s rows of the aggregated data (equivalently,
the items with a nonzero entry in u's row of the interaction matrix). -/
def interactedIds (dfg : List ScoreEntry) (u : ℕ) : List ℕ :=
  (dfg.filter (fun e => decide (e.user_id = u))).map (·.object_id)

/-- The popularity ranking as the specification words it: items by total
score descending with item_id ascending as the tie-break. Stated from the
spec's words for comparison against `popularItems`, which follows the
source. -/
def popularItemsClaimed (dfg : List ScoreEntry) : List ℕ :=
  (List.insertionSort leScoreDesc (itemTotals dfg)).map (·.1)

/-- All item ids observed in the current batch (the object_id column of the
aggregated data). -/
def batchItems (t : List RawRow) : List ℕ := (aggregated t).map (·.object_id)

/-- Concrete raw table used by witnesses: user 1 visited item 100, user 2
visited items 100 and 200, all today and not deleted. -/
def rowsA : List RawRow :=
  [⟨1, 100, 0, false⟩, ⟨2, 100, 0, false⟩, ⟨2, 200, 0, false⟩]

/-- Concrete raw table with two items of equal total score (1 each). -/
def rowsTie : List RawRow := [⟨1, 100, 0, false⟩, ⟨2, 200, 0, false⟩]

/-- Concrete raw table whose only row is soft-deleted, so the SQL filter
matches nothing. -/
def rowsDel : List RawRow := [⟨1, 100, 0, true⟩]

/-- Concrete one-dimensional factor maps used by witnesses. -/
def uFw : ℕ → List ℚ := fun _ => [1]

/-- Concrete one-dimensional factor maps used by witnesses. -/
def iFw : ℕ → List ℚ := fun _ => [1]

/-- The empty cache state. -/
def cacheEmpty : Cache := fun _ => none

/-! ### Helper lemmas about the list primitives of the embedding -/

theorem mem_uniqFirst {α} [DecidableEq α] {l : List α} {a : α} :
    a ∈ uniqFirst l ↔ a ∈ l := by
  induction l with
  | nil => simp [uniqFirst]
  | cons x xs ih =>
    simp only [uniqFirst, List.mem_cons, List.mem_filter, ih, decide_eq_true_eq]
    by_cases hax : a = x <;> simp [hax]

theorem nodup_uniqFirst {α} [DecidableEq α] (l : List α) : (uniqFirst l).Nodup := by
  induction l with
  | nil => simp [uniqFirst]
  | cons x xs ih =>
    simp only [uniqFirst, List.nodup_cons]
    refine ⟨?_, ih.filter _⟩
    simp

theorem mem_enumFromN {l : List ℕ} {n j a : ℕ} :
    (j, a) ∈ enumFromN n l ↔ n ≤ j ∧ l[j - n]? = some a := by
  induction l generalizing n with
  | nil => simp [enumFromN]
  | cons x xs ih =>
    simp only [enumFromN, List.mem_cons, ih, Prod.mk.injEq]
    constructor
    · rintro (⟨rfl, rfl⟩ | ⟨h1, h2⟩)
      · simp
      · refine ⟨by omega, ?_⟩
        have hd : j - n = (j - (n + 1)) + 1 := by omega
        rw [hd, List.getElem?_cons_succ]
        exact h2
    · rintro ⟨h1, h2⟩
      by_cases hj : j = n
      · subst hj
        simp only [Nat.sub_self, List.getElem?_cons_zero, Option.some.injEq] at h2
        exact Or.inl ⟨rfl, h2.symm⟩
      · refine Or.inr ⟨by omega, ?_⟩
        have hd : j - n = (j - (n + 1)) + 1 := by omega
        rw [hd, List.getElem?_cons_succ] at h2
        exact h2

theorem alookup_eq_some_mem : ∀ {ps : List (ℕ × ℕ)} {k v : ℕ},
    alookup ps k = some v → (k, v) ∈ ps
  | [], _, _, h => by simp [alookup] at h
  | p :: ps, k, v, h => by
    obtain ⟨p1, p2⟩ := p
    rw [alookup] at h
    by_cases hp : p1 = k
    · subst hp
      rw [if_pos rfl] at h
      simp only [Option.some.injEq] at h
      subst h
      exact List.mem_cons_self _ _
    · rw [if_neg hp] at h
      exact List.mem_cons_of_mem _ (alookup_eq_some_mem h)

theorem alookup_eq_none : ∀ {ps : List (ℕ × ℕ)} {k : ℕ},
    (∀ p ∈ ps, p.1 ≠ k) → alookup ps k = none
  | [], _, _ => rfl
  | p :: ps, k, h => by
    rw [alookup, if_neg (h p (List.mem_cons_self p ps))]
    exact alookup_eq_none (fun q hq => h q (List.mem_cons_of_mem _ hq))

theorem alookup_isSome : ∀ {ps : List (ℕ × ℕ)} {k v : ℕ},
    (k, v) ∈ ps → ∃ w, alookup ps k = some w
  | [], _, _, h => by simp at h
  | p :: ps, k, v, h => by
    rw [alookup]
    by_cases hp : p.1 = k
    · exact ⟨p.2, if_pos hp⟩
    · rw [if_neg hp]
      rcases List.mem_cons.mp h with heq | hmem
      · rw [← heq] at hp; simp at hp
      · exact alookup_isSome hmem

theorem alookup_map_swap_mem {ps : List (ℕ × ℕ)} {k v : ℕ}
    (h : alookup (ps.map (fun p => (p.2, p.1))) k = some v) : (v, k) ∈ ps := by
  have hm := alookup_eq_some_mem h
  simp only [List.mem_map] at hm
  obtain ⟨p, hp, he⟩ := hm
  obtain ⟨p1, p2⟩ := p
  simp only [Prod.mk.injEq] at he
  obtain ⟨h2, h1⟩ := he
  subst h1; subst h2
  exact hp

theorem getElem?_inj_of_nodup {l : List ℕ} (h : l.Nodup) {i j a : ℕ}
    (hi : l[i]? = some a) (hj : l[j]? = some a) : i = j := by
  rw [List.getElem?_eq_some] at hi hj
  obtain ⟨hi1, hi2⟩ := hi
  obtain ⟨hj1, hj2⟩ := hj
  exact (List.Nodup.getElem_inj_iff h).mp (hi2.trans hj2.symm)

theorem optMapAll_mem : ∀ {xs : List ℕ} {f : ℕ → Option ℕ} {ys : List ℕ},
    optMapAll f xs = some ys → ∀ {y : ℕ}, y ∈ ys → ∃ x ∈ xs, f x = some y
  | [], f, ys, h, y, hy => by
    simp only [optMapAll, Option.some.injEq] at h
    subst h; simp at hy
  | x :: xs, f, ys, h, y, hy => by
    rw [optMapAll] at h
    rcases hfx : f x with _ | z <;> rw [hfx] at h
    · simp at h
    · rcases hrest : optMapAll f xs with _ | zs <;> rw [hrest] at h
      · simp at h
      · simp only [Option.some.injEq] at h
        subst h
        rcases List.mem_cons.mp hy with rfl | hy
        · exact ⟨x, List.mem_cons_self x xs, hfx⟩
        · obtain ⟨w, hw, hfw⟩ := optMapAll_mem hrest hy
          exact ⟨w, List.mem_cons_of_mem _ hw, hfw⟩

theorem optMapAll_nodup : ∀ {xs : List ℕ} {f : ℕ → Option ℕ} {ys : List ℕ},
    optMapAll f xs = some ys → xs.Nodup →
    (∀ x ∈ xs, ∀ x' ∈ xs, ∀ y, f x = some y → f x' = some y → x = x') → ys.Nodup
  | [], f, ys, h, _, _ => by
    simp only [optMapAll, Option.some.injEq] at h
    subst h; exact List.nodup_nil
  | x :: xs, f, ys, h, hx, hinj => by
    rw [optMapAll] at h
    rcases hfx : f x with _ | z <;> rw [hfx] at h
    · simp at h
    · rcases hrest : optMapAll f xs with _ | zs <;> rw [hrest] at h
      · simp at h
      · simp only [Option.some.injEq] at h
        subst h
        rw [List.nodup_cons] at hx ⊢
        refine ⟨?_, optMapAll_nodup hrest hx.2 (fun a ha b hb => hinj a
          (List.mem_cons_of_mem _ ha) b (List.mem_cons_of_mem _ hb))⟩
        intro hz
        obtain ⟨w, hw, hfw⟩ := optMapAll_mem hrest hz
        have hxw : x = w :=
          hinj x (List.mem_cons_self x xs) w (List.mem_cons_of_mem _ hw) z hfx hfw
        exact hx.1 (hxw ▸ hw)

/-! ### Stability of the stable sorts used by pandas

A stable sort with respect to a total preorder `r`, applied to an input that
is pairwise `P`, produces a list that is pairwise `S`, where `S` combines
`r` with the input-order information `P` on ties. This captures exactly what
numpy's stable `lexsort` (used by multi-column `sort_values`) guarantees. -/

theorem orderedInsert_pairwise {α} {r : α → α → Prop} [DecidableRel r]
    [IsTotal α r] [IsTrans α r] {S P : α → α → Prop}
    (H1 : ∀ a b, P a b → r a b → S a b)
    (H2 : ∀ a b, r a b → ¬r b a → S a b) (x : α) :
    ∀ l : List α, l.Sorted r → l.Pairwise S → (∀ y ∈ l, P x y) →
      (l.orderedInsert r x).Pairwise S
  | [], _, _, _ => by simp [List.orderedInsert]
  | y :: ys, hs, hp, hx => by
    by_cases hxy : r x y
    · rw [List.orderedInsert, if_pos hxy]
      refine List.Pairwise.cons ?_ hp
      intro z hz
      rcases List.mem_cons.mp hz with rfl | hz
      · exact H1 x z (hx z (List.mem_cons_self z ys)) hxy
      · have hyz : r y z := (List.sorted_cons.mp hs).1 z hz
        exact H1 x z (hx z (List.mem_cons_of_mem _ hz)) (IsTrans.trans x y z hxy hyz)
    · rw [List.orderedInsert, if_neg hxy]
      have hyx : r y x := (IsTotal.total y x).resolve_right hxy
      obtain ⟨hs1, hs2⟩ := List.sorted_cons.mp hs
      obtain ⟨hp1, hp2⟩ := List.pairwise_cons.mp hp
      refine List.Pairwise.cons ?_
        (orderedInsert_pairwise H1 H2 x ys hs2 hp2
          (fun z hz => hx z (List.mem_cons_of_mem _ hz)))
      intro z hz
      rcases (List.mem_orderedInsert r).mp hz with rfl | hz
      · exact H2 y z hyx hxy
      · exact hp1 z hz

theorem insertionSort_pairwise {α} {r : α → α → Prop} [DecidableRel r]
    [IsTotal α r] [IsTrans α r] {S P : α → α → Prop}
    (H1 : ∀ a b, P a b → r a b → S a b)
    (H2 : ∀ a b, r a b → ¬r b a → S a b) :
    ∀ l : List α, l.Pairwise P → (List.insertionSort r l).Pairwise S
  | [], _ => by simp [List.insertionSort]
  | x :: xs, hp => by
    rw [List.insertionSort]
    have hxs := (List.pairwise_cons.mp hp).1
    exact orderedInsert_pairwise H1 H2 x _ (List.sorted_insertionSort r xs)
      (insertionSort_pairwise H1 H2 xs (List.pairwise_cons.mp hp).2)
      (fun y hy => hxs y ((List.mem_insertionSort r).mp hy))

/-! ### Structure of the aggregated dataframe -/

theorem groupKeys_sorted (df : List RawRow) : (groupKeys df).Sorted leLexNat :=
  List.sorted_insertionSort leLexNat _

theorem groupKeys_nodup (df : List RawRow) : (groupKeys df).Nodup :=
  ((List.perm_insertionSort leLexNat _).nodup_iff).mpr (nodup_uniqFirst _)

theorem mem_groupKeys {df : List RawRow} {p : ℕ × ℕ} :
    p ∈ groupKeys df ↔ p ∈ df.map pairKey := by
  rw [groupKeys, List.mem_insertionSort, mem_uniqFirst]

theorem groupKeys_pairwise_strict (df : List RawRow) :
    (groupKeys df).Pairwise (fun p q : ℕ × ℕ => p.1 < q.1 ∨ (p.1 = q.1 ∧ p.2 < q.2)) := by
  have h := (groupKeys_sorted df).and (groupKeys_nodup df)
  refine h.imp ?_
  rintro ⟨a1, a2⟩ ⟨b1, b2⟩ ⟨hle, hne⟩
  rcases hle with h1 | ⟨h1, h2⟩
  · exact Or.inl h1
  · refine Or.inr ⟨h1, lt_of_le_of_ne h2 ?_⟩
    intro h3
    exact hne (by simp only [Prod.mk.injEq]; exact ⟨h1, h3⟩)

theorem dfGrouped_pairwise_strict (df : List RawRow) :
    (dfGrouped df).Pairwise (fun a b : ScoreEntry =>
      a.user_id < b.user_id ∨ (a.user_id = b.user_id ∧ a.object_id < b.object_id)) := by
  rw [dfGrouped, List.pairwise_map]
  exact groupKeys_pairwise_strict df

theorem dfGrouped_pairKeys_eq (df : List RawRow) :
    (dfGrouped df).map (fun s => (s.user_id, s.object_id)) = groupKeys df := by
  rw [dfGrouped, List.map_map]
  have hid : ((fun s : ScoreEntry => (s.user_id, s.object_id)) ∘
      fun p : ℕ × ℕ => (⟨p.1, p.2, pairScore df p⟩ : ScoreEntry)) = id := by
    funext p; rfl
  rw [hid, List.map_id]

theorem dfGrouped_pairKeys_nodup (df : List RawRow) :
    ((dfGrouped df).map (fun s => (s.user_id, s.object_id))).Nodup := by
  rw [dfGrouped_pairKeys_eq]
  exact groupKeys_nodup df

theorem mem_dfGrouped {df : List RawRow} {s : ScoreEntry} :
    s ∈ dfGrouped df ↔
      (s.user_id, s.object_id) ∈ df.map pairKey ∧
        s.score = pairScore df (s.user_id, s.object_id) := by
  rw [dfGrouped, List.mem_map]
  constructor
  · rintro ⟨p, hp, rfl⟩
    exact ⟨mem_groupKeys.mp hp, rfl⟩
  · rintro ⟨hmem, hsc⟩
    refine ⟨(s.user_id, s.object_id), mem_groupKeys.mpr hmem, ?_⟩
    obtain ⟨u, i, q⟩ := s
    simp only at hsc ⊢
    rw [← hsc]

theorem eventWeight_pos (r : RawRow) : 0 < eventWeight r := by
  rw [eventWeight]
  exact pow_pos (by norm_num [TIME_DECAY_RATE]) _

theorem pairScore_pos {df : List RawRow} {p : ℕ × ℕ}
    (h : p ∈ df.map pairKey) : 0 < pairScore df p := by
  rw [pairScore]
  obtain ⟨r, hr, hrp⟩ := List.mem_map.mp h
  refine List.sum_pos _ ?_ ?_
  · intro q hq
    obtain ⟨r', _, hr'⟩ := List.mem_map.mp hq
    exact hr' ▸ eventWeight_pos r'
  · have : eventWeight r ∈ (df.filter (fun r => decide (pairKey r = p))).map eventWeight := by
      refine List.mem_map_of_mem _ ?_
      rw [List.mem_filter]
      exact ⟨hr, by simp [hrp]⟩
    intro hnil
    rw [hnil] at this
    simp at this

theorem dfGrouped_score_pos {df : List RawRow} {s : ScoreEntry}
    (h : s ∈ dfGrouped df) : 0 < s.score := by
  obtain ⟨hmem, hsc⟩ := mem_dfGrouped.mp h
  rw [hsc]
  exact pairScore_pos hmem

/-! ### The pipeline wiring -/

theorem load_and_process_eq (t : List RawRow) :
    load_and_process t = (aggregated t, buildMatrix (aggregated t)) := by
  rw [load_and_process, aggregated]
  by_cases h : queryFilter t = []
  · rw [if_pos h, h]
    rfl
  · rw [if_neg h]

theorem pipelineEngine_def (t : List RawRow) (uF iF : ℕ → List ℚ) :
    pipelineEngine t uF iF =
      { user_map := user_id_to_idx (aggregated t)
        item_inv_map := item_idx_to_id (aggregated t)
        history_df := aggregated t
        is_trained := true
        user_items_matrix := some (buildMatrix (aggregated t))
        userFactors := (List.range (buildMatrix (aggregated t)).rows).map uF
        itemFactors := (List.range (buildMatrix (aggregated t)).cols).map iF
        itemIdMapCache := none } := by
  rw [pipelineEngine, load_and_process_eq]
  rfl

/-! ### The user history index (claim C4) -/

theorem sortedDf_pairwise (df : List RawRow) :
    (sortedDf (dfGrouped df)).Pairwise (fun a b =>
      leUserScore a b ∧
        (a.user_id = b.user_id ∧ a.score = b.score → a.object_id < b.object_id)) := by
  refine insertionSort_pairwise ?_ ?_ _ (dfGrouped_pairwise_strict df)
  · rintro a b hP hr
    refine ⟨hr, ?_⟩
    rintro ⟨hu, _⟩
    rcases hP with h | ⟨_, h⟩
    · omega
    · exact h
  · rintro a b hr hnr
    refine ⟨hr, ?_⟩
    rintro ⟨hu, hsc⟩
    exact absurd (Or.inr ⟨hu.symm, le_of_eq hsc⟩) hnr

theorem userSortedEntries_pairwise (df : List RawRow) (u : ℕ) :
    (userSortedEntries (dfGrouped df) u).Pairwise
      (fun a b => b.score ≤ a.score ∧ (a.score = b.score → a.object_id < b.object_id)) := by
  have h := (sortedDf_pairwise df).filter (fun e => decide (e.user_id = u))
  rw [userSortedEntries]
  refine h.imp_of_mem ?_
  intro a b ha hb hab
  have hau : a.user_id = u := of_decide_eq_true (List.mem_filter.mp ha).2
  have hbu : b.user_id = u := of_decide_eq_true (List.mem_filter.mp hb).2
  obtain ⟨hr, htie⟩ := hab
  refine ⟨?_, fun hsc => htie ⟨hau.trans hbu.symm, hsc⟩⟩
  rcases hr with h' | ⟨_, h'⟩
  · omega
  · exact h'

theorem userSortedEntries_perm (dfg : List ScoreEntry) (u : ℕ) :
    (userSortedEntries dfg u).Perm (dfg.filter (fun e => decide (e.user_id = u))) :=
  (List.perm_insertionSort leUserScore dfg).filter _

/-- C4: for every user present in the aggregated data, the history index at
that user lists exactly the item ids of the user's aggregated (item, score)
rows, ordered by score descending with item_id ascending as the tie-break
(the engine's stable sort of the groupby output realises this order), and
`get_history_rec` returns the first `REC_HISTORY_COUNT` elements of it. -/
theorem C4_history_order_and_take (t : List RawRow) (uF iF : ℕ → List ℚ) (u : ℕ) :
    userHistoryIndex (aggregated t) u = (userSortedEntries (aggregated t) u).map (·.object_id)
    ∧ (userSortedEntries (aggregated t) u).Perm
        ((aggregated t).filter (fun e => decide (e.user_id = u)))
    ∧ (userSortedEntries (aggregated t) u).Pairwise
        (fun a b => b.score ≤ a.score ∧ (a.score = b.score → a.object_id < b.object_id))
    ∧ (pipelineEngine t uF iF).get_history_rec u
        = (userHistoryIndex (aggregated t) u).take REC_HISTORY_COUNT := by
  refine ⟨rfl, userSortedEntries_perm _ u, userSortedEntries_pairwise (queryFilter t) u, ?_⟩
  rw [pipelineEngine_def, Engine.get_history_rec]

/-! ### The popularity ranking (claim C5) -/

theorem itemTotals_pairwise_key (dfg : List ScoreEntry) :
    (itemTotals dfg).Pairwise (fun a b : ℕ × ℚ => a.1 < b.1) := by
  rw [itemTotals, List.pairwise_map]
  have hs := List.sorted_insertionSort (fun a b : ℕ => a ≤ b) (uniqueItems dfg)
  have hnd : (List.insertionSort (fun a b : ℕ => a ≤ b) (uniqueItems dfg)).Nodup :=
    ((List.perm_insertionSort _ (uniqueItems dfg)).nodup_iff).mpr (nodup_uniqFirst _)
  exact (hs.and hnd).imp (fun h => lt_of_le_of_ne h.1 h.2)

theorem npSmallSortDesc_isDesc : IsDescValueSort npSmallSortDesc := by
  intro l
  constructor
  · exact (List.reverse_perm _).trans (List.perm_insertionSort leTotalAsc _)
  · rw [npSmallSortDesc, List.pairwise_reverse]
    exact List.sorted_insertionSort leTotalAsc l

/-- C5 (amended): for every admissible realisation of the descending value
sort, the popularity ranking lists the distinct items with their summed
scores ordered by total score descending — the order among items with equal
totals is the implementation-defined, deterministic tie order of the
underlying argsort, not item_id ascending — and `get_popular_items`
truncates it; as a pure function of the aggregated input and the sort
realisation it is identical across re-runs. -/
theorem C5_popular_order_amended (srt : List (ℕ × ℚ) → List (ℕ × ℚ))
    (hsrt : IsDescValueSort srt) (dfg : List ScoreEntry) (limit : ℕ)
    (um iim : List (ℕ × ℕ)) :
    popularItems srt dfg = (popularPairs srt dfg).map (·.1)
    ∧ (popularPairs srt dfg).Perm (itemTotals dfg)
    ∧ (popularPairs srt dfg).Pairwise (fun a b : ℕ × ℚ => b.2 ≤ a.2)
    ∧ (Engine.init um iim dfg).get_popular_items srt limit
        = (popularItems srt dfg).take limit :=
  ⟨rfl, (hsrt (itemTotals dfg)).1, (hsrt (itemTotals dfg)).2, rfl⟩

/-- C5 (witness): the amended statement at the small-array realisation of
the sort and the concrete batch with two tied items. -/
theorem C5_witness :
    popularItems npSmallSortDesc (aggregated rowsTie)
      = (popularPairs npSmallSortDesc (aggregated rowsTie)).map (·.1)
    ∧ (popularPairs npSmallSortDesc (aggregated rowsTie)).Perm
        (itemTotals (aggregated rowsTie))
    ∧ (popularPairs npSmallSortDesc (aggregated rowsTie)).Pairwise
        (fun a b : ℕ × ℚ => b.2 ≤ a.2)
    ∧ (Engine.init [] [] (aggregated rowsTie)).get_popular_items npSmallSortDesc 3
        = (popularItems npSmallSortDesc (aggregated rowsTie)).take 3 :=
  C5_popular_order_amended npSmallSortDesc npSmallSortDesc_isDesc (aggregated rowsTie) 3 [] []

/-- C5 (counterexample): numpy's argsort on a two-element array is its
insertion sort, which is stable, so at this input the source's ranking is
exactly the reversed stable ascending sort (`npSmallSortDesc`): items 100
and 200 both have total score 1 and the code yields [200, 100], while the
claimed item_id-ascending tie-break demands [100, 200]. -/
theorem C5_counterexample :
    popularItems npSmallSortDesc (aggregated rowsTie) = [200, 100]
    ∧ popularItemsClaimed (aggregated rowsTie) = [100, 200]
    ∧ popularItems npSmallSortDesc (aggregated rowsTie)
        ≠ popularItemsClaimed (aggregated rowsTie) := by
  norm_num [popularItems, popularItemsClaimed, popularPairs, npSmallSortDesc,
    itemTotals, uniqueItems,
    aggregated, dfGrouped, groupKeys, uniqFirst, pairScore, pairKey, queryFilter,
    eventWeight, TIME_DECAY_RATE, TIME_DECAY_WINDOW, rowsTie, leTotalAsc, leScoreDesc,
    leLexNat, List.insertionSort, List.orderedInsert]

/-! ### Unknown entities (claim C6) -/

theorem mem_of_getElem?_opt {l : List ℕ} {k a : ℕ} (h : l[k]? = some a) : a ∈ l := by
  rw [List.getElem?_eq_some] at h
  obtain ⟨hk, rfl⟩ := h
  exact List.getElem_mem hk

theorem alookup_user_id_to_idx_eq_none {dfg : List ScoreEntry} {u : ℕ}
    (h : u ∉ dfg.map (·.user_id)) : alookup (user_id_to_idx dfg) u = none := by
  refine alookup_eq_none ?_
  rintro ⟨a, k⟩ hp
  simp only [user_id_to_idx, List.mem_map] at hp
  obtain ⟨⟨j, b⟩, hj, he⟩ := hp
  simp only [Prod.mk.injEq] at he
  obtain ⟨rfl, rfl⟩ := he
  have hb : b ∈ uniqueUsers dfg := mem_of_getElem?_opt (mem_enumFromN.mp hj).2
  intro hbu
  exact h (hbu ▸ mem_uniqFirst.mp hb)

theorem alookup_invert_item_map_eq_none {dfg : List ScoreEntry} {i : ℕ}
    (h : i ∉ dfg.map (·.object_id)) :
    alookup (invertMap (item_idx_to_id dfg)) i = none := by
  refine alookup_eq_none ?_
  rintro ⟨a, k⟩ hp
  simp only [invertMap, item_idx_to_id, List.mem_reverse, List.mem_map] at hp
  obtain ⟨⟨j, b⟩, hj, he⟩ := hp
  simp only [Prod.mk.injEq] at he
  obtain ⟨rfl, rfl⟩ := he
  have hb : b ∈ uniqueItems dfg := mem_of_getElem?_opt (mem_enumFromN.mp hj).2
  intro hbu
  exact h (hbu ▸ mem_uniqFirst.mp hb)

theorem userHistoryIndex_eq_nil {dfg : List ScoreEntry} {u : ℕ}
    (h : u ∉ dfg.map (·.user_id)) : userHistoryIndex dfg u = [] := by
  rw [userHistoryIndex]
  have hf : (sortedDf dfg).filter (fun e => decide (e.user_id = u)) = [] := by
    rw [List.filter_eq_nil_iff]
    intro e he
    have hmem : e ∈ dfg := (List.perm_insertionSort leUserScore dfg).mem_iff.mp he
    simp only [decide_eq_true_eq]
    intro heq
    exact h (heq ▸ List.mem_map_of_mem (·.user_id) hmem)
  rw [hf]
  rfl

theorem get_related_items_fst {e : Engine} (i : ℕ) (h : e.is_trained = true) :
    (e.get_related_items i).1 =
      { e with itemIdMapCache := some (e.itemIdMapCache.getD (invertMap e.item_inv_map)) } := by
  rw [Engine.get_related_items, if_neg (by simp [h])]
  rcases halo : alookup (e.itemIdMapCache.getD (invertMap e.item_inv_map)) i with _ | idx
  · simp only [halo]
  · simp only [halo]
    rcases hopt : optMapAll (fun j => alookup e.item_inv_map j)
        ((modelSimilarItems e.itemFactors idx (REC_RELATED_COUNT + 1)).filter
          (fun j => decide (j ≠ idx))) with _ | recs
    · simp only [hopt]
    · simp only [hopt]

/-- C6 (amended): a user absent from the current batch's model gets `[]`
from both `get_history_rec` and `get_discovery_rec`, and an item absent
from the current batch's item index gets `[]` from `get_related_items`;
no exception escapes, and the only engine-state change is that
`get_related_items` materialises the lazily built reverse item-id map
(`_item_id_map_cache`) on first use. -/
theorem C6_unknown_entities_amended (t : List RawRow) (uF iF : ℕ → List ℚ) (u i : ℕ)
    (hu : u ∉ (aggregated t).map (·.user_id))
    (hi : i ∉ (aggregated t).map (·.object_id)) :
    (pipelineEngine t uF iF).get_history_rec u = []
    ∧ (pipelineEngine t uF iF).get_discovery_rec u = []
    ∧ ((pipelineEngine t uF iF).get_related_items i).2 = []
    ∧ ((pipelineEngine t uF iF).get_related_items i).1 =
        { pipelineEngine t uF iF with
          itemIdMapCache := some (invertMap (item_idx_to_id (aggregated t))) } := by
  have hum := alookup_user_id_to_idx_eq_none hu
  have him := alookup_invert_item_map_eq_none hi
  refine ⟨?_, ?_, ?_, ?_⟩
  · rw [pipelineEngine_def, Engine.get_history_rec]
    simp only [userHistoryIndex_eq_nil hu, List.take_nil]
  · rw [pipelineEngine_def, Engine.get_discovery_rec]
    simp only [hum]
  · rw [pipelineEngine_def, Engine.get_related_items, if_neg (by simp)]
    simp only [Option.getD_none, him]
  · rw [get_related_items_fst i (by rw [pipelineEngine_def]), pipelineEngine_def]
    rfl

/-- C6 (counterexample): querying `get_related_items` for an unknown item
on a freshly trained engine does change the engine state — it sets the
lazily built `_item_id_map_cache` attribute — refuting the claim that no
engine state changes. -/
theorem C6_counterexample :
    ((pipelineEngine rowsA uFw iFw).get_related_items 999).1 ≠ pipelineEngine rowsA uFw iFw := by
  intro h
  have h2 := congrArg Engine.itemIdMapCache h
  rw [get_related_items_fst 999 (by rw [pipelineEngine_def])] at h2
  rw [pipelineEngine_def] at h2
  simp at h2

/-- C6 (witness): concrete instantiation of the amended statement, for the
batch `rowsA` and the unknown user/item id 999. -/
theorem C6_witness :
    (pipelineEngine rowsA uFw iFw).get_history_rec 999 = []
    ∧ (pipelineEngine rowsA uFw iFw).get_discovery_rec 999 = []
    ∧ ((pipelineEngine rowsA uFw iFw).get_related_items 999).2 = []
    ∧ ((pipelineEngine rowsA uFw iFw).get_related_items 999).1 =
        { pipelineEngine rowsA uFw iFw with
          itemIdMapCache := some (invertMap (item_idx_to_id (aggregated rowsA))) } :=
  C6_unknown_entities_amended rowsA uFw iFw 999 999
    (by
      norm_num [aggregated, dfGrouped, groupKeys, uniqFirst, pairKey, queryFilter,
        rowsA, leLexNat, List.insertionSort, List.orderedInsert, TIME_DECAY_WINDOW])
    (by
      norm_num [aggregated, dfGrouped, groupKeys, uniqFirst, pairKey, queryFilter,
        rowsA, leLexNat, List.insertionSort, List.orderedInsert, TIME_DECAY_WINDOW])

/-! ### Empty dataset aborts the run (claim C7) -/

/-- C7: when no interaction events satisfy the window and deleted filters,
`load_and_process` returns an empty dataframe and a 0x0 matrix, and
`main` exits with status 1 before training and before any cache write. -/
theorem C7_empty_dataset_aborts (t : List RawRow) (uF iF : ℕ → List ℚ) (c : Cache)
    (h : queryFilter t = []) :
    load_and_process t = ([], ⟨0, 0, []⟩) ∧ mainRun t uF iF c = RunResult.aborted := by
  have h1 : load_and_process t = ([], ⟨0, 0, []⟩) := by
    rw [load_and_process, if_pos h]
  refine ⟨h1, ?_⟩
  rw [mainRun]
  simp [h1]

/-- C7 (witness): the one-row table whose row is soft-deleted filters to
nothing; the loader returns the empty result and the run aborts. -/
theorem C7_witness :
    load_and_process rowsDel = ([], ⟨0, 0, []⟩)
    ∧ mainRun rowsDel uFw iFw cacheEmpty = RunResult.aborted :=
  C7_empty_dataset_aborts rowsDel uFw iFw cacheEmpty (by decide)

/-! ### The Redis publisher (claims C8 and C1) -/

theorem saveUserBlock_other {c : Cache} {p : ℕ × UserRecs} {k : RedisKey}
    (h1 : k ≠ RedisKey.userHistory p.1) (h2 : k ≠ RedisKey.userDiscovery p.1) :
    saveUserBlock c p k = c k := by
  by_cases hh : p.2.history = [] <;> by_cases hd : p.2.discovery = [] <;>
    simp [saveUserBlock, hh, hd, cmdDel, cmdRpush, cmdExpire, h1, h2]

theorem saveItemBlock_other {c : Cache} {p : ℕ × List ℕ} {k : RedisKey}
    (h : k ≠ RedisKey.itemRelated p.1) : saveItemBlock c p k = c k := by
  by_cases hr : p.2 = [] <;>
    simp [saveItemBlock, hr, cmdDel, cmdRpush, cmdExpire, h]

theorem foldl_saveUserBlock_other : ∀ {l : List (ℕ × UserRecs)} {c : Cache} {k : RedisKey},
    (∀ p ∈ l, k ≠ RedisKey.userHistory p.1 ∧ k ≠ RedisKey.userDiscovery p.1) →
    l.foldl saveUserBlock c k = c k
  | [], _, _, _ => rfl
  | p :: ps, c, k, h => by
    rw [List.foldl_cons,
      foldl_saveUserBlock_other (fun q hq => h q (List.mem_cons_of_mem _ hq))]
    exact saveUserBlock_other (h p (List.mem_cons_self p ps)).1
      (h p (List.mem_cons_self p ps)).2

theorem foldl_saveItemBlock_other : ∀ {l : List (ℕ × List ℕ)} {c : Cache} {k : RedisKey},
    (∀ p ∈ l, k ≠ RedisKey.itemRelated p.1) → l.foldl saveItemBlock c k = c k
  | [], _, _, _ => rfl
  | p :: ps, c, k, h => by
    rw [List.foldl_cons,
      foldl_saveItemBlock_other (fun q hq => h q (List.mem_cons_of_mem _ hq))]
    exact saveItemBlock_other (h p (List.mem_cons_self p ps))

theorem saveUserBlock_hist (c : Cache) (p : ℕ × UserRecs) :
    saveUserBlock c p (RedisKey.userHistory p.1) =
      if p.2.history = [] then none
      else some (p.2.history, some REDIS_EXPIRE_SECONDS) := by
  by_cases hh : p.2.history = [] <;> by_cases hd : p.2.discovery = [] <;>
    simp [saveUserBlock, hh, hd, cmdDel, cmdRpush, cmdExpire]

theorem saveUserBlock_disc (c : Cache) (p : ℕ × UserRecs) :
    saveUserBlock c p (RedisKey.userDiscovery p.1) =
      if p.2.discovery = [] then none
      else some (p.2.discovery, some REDIS_EXPIRE_SECONDS) := by
  by_cases hh : p.2.history = [] <;> by_cases hd : p.2.discovery = [] <;>
    simp [saveUserBlock, hh, hd, cmdDel, cmdRpush, cmdExpire]

theorem saveItemBlock_rel (c : Cache) (p : ℕ × List ℕ) :
    saveItemBlock c p (RedisKey.itemRelated p.1) =
      if p.2 = [] then none else some (p.2, some REDIS_EXPIRE_SECONDS) := by
  by_cases hr : p.2 = [] <;>
    simp [saveItemBlock, hr, cmdDel, cmdRpush, cmdExpire]

/-- C8: for every key the publisher processes it first deletes the key;
then, exactly when the new list is non-empty, it writes the list and sets a
time-to-live of `REDIS_EXPIRE_SECONDS`, and a key whose new list is empty
is absent after publish. (The id columns of the two inputs are free of
duplicates because `main` builds them from dictionaries keyed by id.) -/
theorem C8_publish_per_key (c : Cache) (ur : List (ℕ × UserRecs)) (ir : List (ℕ × List ℕ))
    (hu : (ur.map (·.1)).Nodup) (hi : (ir.map (·.1)).Nodup) :
    (∀ q ∈ ur,
      save_results_to_redis c ur ir (RedisKey.userHistory q.1)
        = (if q.2.history = [] then none else some (q.2.history, some REDIS_EXPIRE_SECONDS))
      ∧ save_results_to_redis c ur ir (RedisKey.userDiscovery q.1)
        = (if q.2.discovery = [] then none else some (q.2.discovery, some REDIS_EXPIRE_SECONDS)))
    ∧ ∀ q ∈ ir,
      save_results_to_redis c ur ir (RedisKey.itemRelated q.1)
        = (if q.2 = [] then none else some (q.2, some REDIS_EXPIRE_SECONDS)) := by
  constructor
  · intro q hq
    obtain ⟨s, t2, rfl⟩ := List.append_of_mem hq
    have hnd : q.1 ∉ t2.map (·.1) := by
      have hsub : (q.1 :: t2.map (·.1)).Sublist ((s ++ q :: t2).map (·.1)) := by
        rw [List.map_append, List.map_cons]
        exact List.sublist_append_right _ _
      exact (List.nodup_cons.mp (hu.sublist hsub)).1
    have hother : ∀ p ∈ t2, ∀ kk : RedisKey,
        (kk = RedisKey.userHistory q.1 ∨ kk = RedisKey.userDiscovery q.1) →
        kk ≠ RedisKey.userHistory p.1 ∧ kk ≠ RedisKey.userDiscovery p.1 := by
      intro p hp kk hkk
      have hne : q.1 ≠ p.1 := by
        intro hq1
        exact hnd (hq1 ▸ List.mem_map_of_mem (·.1) hp)
      rcases hkk with rfl | rfl <;>
        exact ⟨by simp [hne], by simp [hne]⟩
    have hbase : ∀ kk : RedisKey,
        (kk = RedisKey.userHistory q.1 ∨ kk = RedisKey.userDiscovery q.1) →
        save_results_to_redis c (s ++ q :: t2) ir kk
          = saveUserBlock (s.foldl saveUserBlock c) q kk := by
      intro kk hkk
      rw [save_results_to_redis,
        foldl_saveItemBlock_other (fun p _ => by rcases hkk with rfl | rfl <;> simp),
        List.foldl_append, List.foldl_cons,
        foldl_saveUserBlock_other (fun p hp => hother p hp kk hkk)]
    constructor
    · rw [hbase _ (Or.inl rfl)]
      exact saveUserBlock_hist _ q
    · rw [hbase _ (Or.inr rfl)]
      exact saveUserBlock_disc _ q
  · intro q hq
    obtain ⟨s, t2, rfl⟩ := List.append_of_mem hq
    have hnd : q.1 ∉ t2.map (·.1) := by
      have hsub : (q.1 :: t2.map (·.1)).Sublist ((s ++ q :: t2).map (·.1)) := by
        rw [List.map_append, List.map_cons]
        exact List.sublist_append_right _ _
      exact (List.nodup_cons.mp (hi.sublist hsub)).1
    rw [save_results_to_redis, List.foldl_append, List.foldl_cons,
      foldl_saveItemBlock_other (fun p hp => by
        have hne : q.1 ≠ p.1 := by
          intro hq1
          exact hnd (hq1 ▸ List.mem_map_of_mem (·.1) hp)
        simp [hne])]
    exact saveItemBlock_rel _ q

/-- C8 (witness): a concrete publish of one user (non-empty history, empty
discovery) evaluated at the user's history key. -/
theorem C8_witness :
    save_results_to_redis cacheEmpty [(1, ⟨[100], []⟩)] [(2, [7])]
      (RedisKey.userHistory 1) = some ([100], some REDIS_EXPIRE_SECONDS) := by
  have h := ((C8_publish_per_key cacheEmpty [(1, ⟨[100], []⟩)] [(2, [7])]
    (by decide) (by decide)).1 (1, ⟨[100], []⟩) (by decide)).1
  simpa using h

/-- C1: the publisher never touches the key `rec:sys:global:popular` — the
batch run leaves the cold-start fallback key exactly as it found it, so on
the concrete run of one user with history [100] starting from an empty
cache the key is absent after publish, contradicting the claim that every
batch run writes the popularity ranking there. -/
theorem C1_global_popular_never_written :
    (∀ (c : Cache) (ur : List (ℕ × UserRecs)) (ir : List (ℕ × List ℕ)),
      save_results_to_redis c ur ir RedisKey.globalPopular = c RedisKey.globalPopular)
    ∧ save_results_to_redis cacheEmpty [(1, ⟨[100], []⟩)] [] RedisKey.globalPopular = none := by
  have hgen : ∀ (c : Cache) (ur : List (ℕ × UserRecs)) (ir : List (ℕ × List ℕ)),
      save_results_to_redis c ur ir RedisKey.globalPopular = c RedisKey.globalPopular := by
    intro c ur ir
    rw [save_results_to_redis,
      foldl_saveItemBlock_other (fun p _ => by simp),
      foldl_saveUserBlock_other (fun p _ => by simp)]
  exact ⟨hgen, (hgen cacheEmpty _ _).trans rfl⟩

/-! ### Index-map lemmas -/

theorem user_id_to_idx_spec {dfg : List ScoreEntry} {u k : ℕ}
    (h : alookup (user_id_to_idx dfg) u = some k) : (uniqueUsers dfg)[k]? = some u := by
  have hm := alookup_map_swap_mem h
  simpa using (mem_enumFromN.mp hm).2

theorem item_id_to_idx_spec {dfg : List ScoreEntry} {a k : ℕ}
    (h : alookup (item_id_to_idx dfg) a = some k) : (uniqueItems dfg)[k]? = some a := by
  have hm := alookup_map_swap_mem h
  simpa using (mem_enumFromN.mp hm).2

theorem item_idx_to_id_spec {dfg : List ScoreEntry} {j a : ℕ}
    (h : alookup (item_idx_to_id dfg) j = some a) : (uniqueItems dfg)[j]? = some a := by
  have hm := alookup_eq_some_mem h
  simpa using (mem_enumFromN.mp hm).2

theorem invert_item_map_spec {dfg : List ScoreEntry} {i k : ℕ}
    (h : alookup (invertMap (item_idx_to_id dfg)) i = some k) :
    (uniqueItems dfg)[k]? = some i := by
  have hm := alookup_eq_some_mem h
  rw [invertMap, List.mem_reverse] at hm
  have hm2 : (k, i) ∈ enumFromN 0 (uniqueItems dfg) := by
    rcases List.mem_map.mp hm with ⟨⟨x, y⟩, hxy, he⟩
    simp only [Prod.mk.injEq] at he
    obtain ⟨rfl, rfl⟩ := he
    exact hxy
  simpa using (mem_enumFromN.mp hm2).2

theorem user_idx_lookup_of_mem {dfg : List ScoreEntry} {a : ℕ}
    (h : a ∈ uniqueUsers dfg) :
    ∃ k, alookup (user_id_to_idx dfg) a = some k ∧ (uniqueUsers dfg)[k]? = some a := by
  obtain ⟨j, hj⟩ := List.mem_iff_getElem?.mp h
  have hm : (j, a) ∈ enumFromN 0 (uniqueUsers dfg) :=
    mem_enumFromN.mpr ⟨Nat.zero_le j, by simpa using hj⟩
  have hm' : (a, j) ∈ user_id_to_idx dfg := by
    rw [user_id_to_idx]
    exact List.mem_map_of_mem _ hm
  obtain ⟨w, hw⟩ := alookup_isSome hm'
  exact ⟨w, hw, user_id_to_idx_spec hw⟩

theorem item_idx_lookup_of_mem {dfg : List ScoreEntry} {a : ℕ}
    (h : a ∈ uniqueItems dfg) :
    ∃ k, alookup (item_id_to_idx dfg) a = some k ∧ (uniqueItems dfg)[k]? = some a := by
  obtain ⟨j, hj⟩ := List.mem_iff_getElem?.mp h
  have hm : (j, a) ∈ enumFromN 0 (uniqueItems dfg) :=
    mem_enumFromN.mpr ⟨Nat.zero_le j, by simpa using hj⟩
  have hm' : (a, j) ∈ item_id_to_idx dfg := by
    rw [item_id_to_idx]
    exact List.mem_map_of_mem _ hm
  obtain ⟨w, hw⟩ := alookup_isSome hm'
  exact ⟨w, hw, item_id_to_idx_spec hw⟩

/-! ### Discovery excludes interacted items (claim C2) -/

theorem mem_modelRecommend_row_zero {iF : List (List ℚ)} {uvec : List ℚ}
    {row : ℕ → ℚ} {N j : ℕ}
    (h : j ∈ modelRecommend iF uvec row N true) : row j = 0 := by
  simp only [modelRecommend] at h
  obtain ⟨p, hmem, rfl⟩ := List.mem_map.mp (List.mem_of_mem_take h)
  have h2 := (List.perm_insertionSort leScoreDesc _).mem_iff.mp hmem
  obtain ⟨j2, hj2, he⟩ := List.mem_map.mp h2
  obtain rfl := he
  have h3 := (List.mem_filter.mp hj2).2
  simpa using h3

theorem mem_interactedIds {dfg : List ScoreEntry} {u a : ℕ} :
    a ∈ interactedIds dfg u ↔ ∃ s ∈ dfg, s.user_id = u ∧ s.object_id = a := by
  rw [interactedIds]
  constructor
  · intro h
    obtain ⟨s, hs, rfl⟩ := List.mem_map.mp h
    exact ⟨s, (List.mem_filter.mp hs).1,
      of_decide_eq_true (List.mem_filter.mp hs).2, rfl⟩
  · rintro ⟨s, hs, hsu, rfl⟩
    exact List.mem_map_of_mem _ (List.mem_filter.mpr ⟨hs, by simp [hsu]⟩)

theorem buildMatrix_entry_pos {df : List RawRow} {i j : ℕ}
    (h : ∃ s ∈ dfGrouped df,
      (alookup (user_id_to_idx (dfGrouped df)) s.user_id).getD 0 = i ∧
      (alookup (item_id_to_idx (dfGrouped df)) s.object_id).getD 0 = j) :
    0 < (buildMatrix (dfGrouped df)).entry i j := by
  rw [Csr.entry]
  refine List.sum_pos _ ?_ ?_
  · intro q hq
    obtain ⟨e, he, rfl⟩ := List.mem_map.mp hq
    have he1 := (List.mem_filter.mp he).1
    rw [buildMatrix] at he1
    obtain ⟨s', hs', rfl⟩ := List.mem_map.mp he1
    exact dfGrouped_score_pos hs'
  · obtain ⟨s, hs, hi, hj⟩ := h
    have hmem : ((alookup (user_id_to_idx (dfGrouped df)) s.user_id).getD 0,
        (alookup (item_id_to_idx (dfGrouped df)) s.object_id).getD 0, s.score)
        ∈ (buildMatrix (dfGrouped df)).entries := by
      rw [buildMatrix]
      exact List.mem_map_of_mem _ hs
    intro hnil
    have : s.score ∈ ((buildMatrix (dfGrouped df)).entries.filter
        (fun e => decide (e.1 = i ∧ e.2.1 = j))).map (fun e => e.2.2) := by
      refine List.mem_map.mpr ⟨_, List.mem_filter.mpr ⟨hmem, ?_⟩, rfl⟩
      simp [hi, hj]
    rw [hnil] at this
    simp at this

theorem get_discovery_rec_none {e : Engine} {u : ℕ}
    (halo : alookup e.user_map u = none) : e.get_discovery_rec u = [] := by
  simp only [Engine.get_discovery_rec, halo]
  rcases e.is_trained <;> rcases e.user_items_matrix <;> rfl

theorem get_discovery_rec_eq {e : Engine} {u uidx : ℕ} {m : Csr}
    (ht : e.is_trained = true) (hm : e.user_items_matrix = some m)
    (halo : alookup e.user_map u = some uidx) :
    e.get_discovery_rec u =
      (optMapAll (fun j => alookup e.item_inv_map j)
        (modelRecommend e.itemFactors (e.userFactors.getD uidx [])
          (fun j => m.entry uidx j) REC_DISCOVERY_COUNT true)).getD [] := by
  simp only [Engine.get_discovery_rec, ht, hm, halo]

/-- C2: for every user known to the factor model, the discovery list of the
pipeline engine never contains an item present in that user's aggregated
interaction set (an item with a nonzero entry in the user's row of the
interaction matrix): `filter_already_liked_items=True` drops exactly the
nonzero columns of the user's stored matrix row, and the loader-built item
maps translate indices bijectively. -/
theorem C2_discovery_excludes_interacted (t : List RawRow) (uF iF : ℕ → List ℚ)
    (u a : ℕ) (h : a ∈ (pipelineEngine t uF iF).get_discovery_rec u) :
    a ∉ interactedIds (aggregated t) u := by
  have ht : (pipelineEngine t uF iF).is_trained = true := by rw [pipelineEngine_def]
  have hmx : (pipelineEngine t uF iF).user_items_matrix
      = some (buildMatrix (aggregated t)) := by rw [pipelineEngine_def]
  have hum : (pipelineEngine t uF iF).user_map = user_id_to_idx (aggregated t) := by
    rw [pipelineEngine_def]
  have him : (pipelineEngine t uF iF).item_inv_map = item_idx_to_id (aggregated t) := by
    rw [pipelineEngine_def]
  rcases halo : alookup (user_id_to_idx (aggregated t)) u with _ | uidx
  · rw [get_discovery_rec_none (by rw [hum, halo])] at h
    simp at h
  · rw [get_discovery_rec_eq ht hmx (by rw [hum, halo]), him] at h
    rcases hopt : optMapAll (fun j => alookup (item_idx_to_id (aggregated t)) j)
        (modelRecommend (pipelineEngine t uF iF).itemFactors
          ((pipelineEngine t uF iF).userFactors.getD uidx [])
          (fun j => (buildMatrix (aggregated t)).entry uidx j)
          REC_DISCOVERY_COUNT true) with _ | recs <;> rw [hopt] at h
    · simp at h
    · rw [Option.getD_some] at h
      obtain ⟨j, hj, hjid⟩ := optMapAll_mem hopt h
      have hrow : (buildMatrix (aggregated t)).entry uidx j = 0 :=
        mem_modelRecommend_row_zero hj
      have hitsj : (uniqueItems (aggregated t))[j]? = some a := item_idx_to_id_spec hjid
      intro hmem
      obtain ⟨s, hs, hsu, hsa⟩ := mem_interactedIds.mp hmem
      have hsitem : s.object_id ∈ uniqueItems (aggregated t) :=
        mem_uniqFirst.mpr (List.mem_map_of_mem _ hs)
      obtain ⟨k, hk, hkspec⟩ := item_idx_lookup_of_mem hsitem
      have hkj : k = j :=
        getElem?_inj_of_nodup (nodup_uniqFirst _) (hsa ▸ hkspec) hitsj
      have hpos : 0 < (buildMatrix (aggregated t)).entry uidx j := by
        refine buildMatrix_entry_pos ⟨s, hs, ?_, ?_⟩
        · show (alookup (user_id_to_idx (aggregated t)) s.user_id).getD 0 = uidx
          rw [hsu, halo]
          rfl
        · show (alookup (item_id_to_idx (aggregated t)) s.object_id).getD 0 = j
          rw [hk, Option.getD_some, hkj]
      rw [hrow] at hpos
      exact lt_irrefl 0 hpos

/-! ### Related items exclude the item itself (claim C3) -/

theorem get_related_items_snd_none {e : Engine} {i : ℕ}
    (halo : alookup (e.itemIdMapCache.getD (invertMap e.item_inv_map)) i = none) :
    (e.get_related_items i).2 = [] := by
  by_cases ht : e.is_trained = false
  · simp [Engine.get_related_items, ht]
  · simp only [Engine.get_related_items, if_neg ht, halo]

theorem get_related_items_snd_eq {e : Engine} {i itemIdx : ℕ}
    (ht : e.is_trained = true)
    (halo : alookup (e.itemIdMapCache.getD (invertMap e.item_inv_map)) i = some itemIdx) :
    (e.get_related_items i).2 =
      ((optMapAll (fun j => alookup e.item_inv_map j)
        ((modelSimilarItems e.itemFactors itemIdx (REC_RELATED_COUNT + 1)).filter
          (fun j => decide (j ≠ itemIdx)))).getD []).take REC_RELATED_COUNT := by
  simp only [Engine.get_related_items, if_neg (by simp [ht] : ¬e.is_trained = false), halo]
  rcases hopt : optMapAll (fun j => alookup e.item_inv_map j)
      ((modelSimilarItems e.itemFactors itemIdx (REC_RELATED_COUNT + 1)).filter
        (fun j => decide (j ≠ itemIdx))) with _ | recs <;> simp [hopt]

/-- C3: the related-items operation of the pipeline engine never returns
the queried item itself — the source filters the item's own index out of
the `similar_items` result before mapping indices back to ids — and the
returned list never exceeds `REC_RELATED_COUNT` elements. -/
theorem C3_related_excludes_self_and_caps (t : List RawRow) (uF iF : ℕ → List ℚ) (i : ℕ) :
    i ∉ ((pipelineEngine t uF iF).get_related_items i).2
    ∧ ((pipelineEngine t uF iF).get_related_items i).2.length ≤ REC_RELATED_COUNT := by
  have ht : (pipelineEngine t uF iF).is_trained = true := by rw [pipelineEngine_def]
  have him : (pipelineEngine t uF iF).item_inv_map = item_idx_to_id (aggregated t) := by
    rw [pipelineEngine_def]
  have hcache : (pipelineEngine t uF iF).itemIdMapCache = none := by rw [pipelineEngine_def]
  rcases halo : alookup ((pipelineEngine t uF iF).itemIdMapCache.getD
      (invertMap (pipelineEngine t uF iF).item_inv_map)) i with _ | itemIdx
  · rw [get_related_items_snd_none halo]
    simp
  · rw [get_related_items_snd_eq ht halo, him]
    rcases hopt : optMapAll (fun j => alookup (item_idx_to_id (aggregated t)) j)
        ((modelSimilarItems (pipelineEngine t uF iF).itemFactors itemIdx
          (REC_RELATED_COUNT + 1)).filter (fun j => decide (j ≠ itemIdx))) with _ | recs
    · simp
    · rw [Option.getD_some]
      constructor
      · intro hmem
        obtain ⟨j, hj, hjid⟩ := optMapAll_mem hopt (List.mem_of_mem_take hmem)
        have hne : j ≠ itemIdx := of_decide_eq_true (List.mem_filter.mp hj).2
        have h1 : (uniqueItems (aggregated t))[j]? = some i := item_idx_to_id_spec hjid
        have h2 : (uniqueItems (aggregated t))[itemIdx]? = some i := by
          rw [hcache, him, Option.getD_none] at halo
          exact invert_item_map_spec halo
        exact hne (getElem?_inj_of_nodup (nodup_uniqFirst _) h1 h2)
      · exact List.length_take_le _ _

/-! ### Aggregation and matrix structure (claim C9) -/

theorem pairScore_perm {df df' : List RawRow} (h : df.Perm df') (p : ℕ × ℕ) :
    pairScore df p = pairScore df' p := by
  rw [pairScore, pairScore]
  exact ((h.filter _).map eventWeight).sum_eq

theorem uniqFirst_perm_of_mem_iff {α} [DecidableEq α] {l l' : List α}
    (h : ∀ a, a ∈ l ↔ a ∈ l') : (uniqFirst l).Perm (uniqFirst l') := by
  refine List.perm_of_nodup_nodup_toFinset_eq (nodup_uniqFirst l) (nodup_uniqFirst l') ?_
  ext a
  simp [List.mem_toFinset, mem_uniqFirst, h a]

theorem groupKeys_eq_of_perm {df df' : List RawRow} (h : df.Perm df') :
    groupKeys df = groupKeys df' := by
  refine List.eq_of_perm_of_sorted ?_ (groupKeys_sorted df) (groupKeys_sorted df')
  refine ((List.perm_insertionSort leLexNat _).trans ?_).trans
    (List.perm_insertionSort leLexNat _).symm
  exact uniqFirst_perm_of_mem_iff (fun a => h.map pairKey |>.mem_iff)

theorem dfGrouped_eq_of_perm {df df' : List RawRow} (h : df.Perm df') :
    dfGrouped df = dfGrouped df' := by
  rw [dfGrouped, dfGrouped, groupKeys_eq_of_perm h]
  exact List.map_congr_left (fun p _ => by rw [pairScore_perm h])

theorem uniqFirst_length_eq_card {l : List ℕ} :
    (uniqFirst l).length = l.toFinset.card := by
  rw [← List.toFinset_card_of_nodup (nodup_uniqFirst l)]
  congr 1
  ext a
  simp [List.mem_toFinset, mem_uniqFirst]

theorem dfGrouped_users_eq (df : List RawRow) :
    (dfGrouped df).map (·.user_id) = (groupKeys df).map Prod.fst := by
  rw [← dfGrouped_pairKeys_eq df, List.map_map]
  rfl

theorem dfGrouped_items_eq (df : List RawRow) :
    (dfGrouped df).map (·.object_id) = (groupKeys df).map Prod.snd := by
  rw [← dfGrouped_pairKeys_eq df, List.map_map]
  rfl

theorem mem_groupKeys_fst {df : List RawRow} {a : ℕ} :
    a ∈ (groupKeys df).map Prod.fst ↔ a ∈ df.map (·.user_id) := by
  have h2 : df.map (·.user_id) = (df.map pairKey).map Prod.fst := by
    rw [List.map_map]
    rfl
  rw [h2]
  constructor <;> intro hp
  · obtain ⟨p, hpk, rfl⟩ := List.mem_map.mp hp
    exact List.mem_map_of_mem _ (mem_groupKeys.mp hpk)
  · obtain ⟨p, hpk, rfl⟩ := List.mem_map.mp hp
    exact List.mem_map_of_mem _ (mem_groupKeys.mpr hpk)

theorem mem_groupKeys_snd {df : List RawRow} {a : ℕ} :
    a ∈ (groupKeys df).map Prod.snd ↔ a ∈ df.map (·.object_id) := by
  have h2 : df.map (·.object_id) = (df.map pairKey).map Prod.snd := by
    rw [List.map_map]
    rfl
  rw [h2]
  constructor <;> intro hp
  · obtain ⟨p, hpk, rfl⟩ := List.mem_map.mp hp
    exact List.mem_map_of_mem _ (mem_groupKeys.mp hpk)
  · obtain ⟨p, hpk, rfl⟩ := List.mem_map.mp hp
    exact List.mem_map_of_mem _ (mem_groupKeys.mpr hpk)

theorem buildMatrix_rows_card (df : List RawRow) :
    (buildMatrix (dfGrouped df)).rows = (df.map (·.user_id)).toFinset.card := by
  show (uniqueUsers (dfGrouped df)).length = _
  rw [uniqueUsers, uniqFirst_length_eq_card]
  congr 1
  ext a
  simp only [List.mem_toFinset]
  rw [dfGrouped_users_eq]
  exact mem_groupKeys_fst

theorem buildMatrix_cols_card (df : List RawRow) :
    (buildMatrix (dfGrouped df)).cols = (df.map (·.object_id)).toFinset.card := by
  show (uniqueItems (dfGrouped df)).length = _
  rw [uniqueItems, uniqFirst_length_eq_card]
  congr 1
  ext a
  simp only [List.mem_toFinset]
  rw [dfGrouped_items_eq]
  exact mem_groupKeys_snd

theorem dfGrouped_nodup (df : List RawRow) : (dfGrouped df).Nodup :=
  List.Nodup.of_map _ (dfGrouped_pairKeys_nodup df)

theorem buildMatrix_positions_nodup (df : List RawRow) :
    ((buildMatrix (dfGrouped df)).entries.map (fun e => (e.1, e.2.1))).Nodup := by
  show (((dfGrouped df).map _).map _).Nodup
  rw [List.map_map]
  refine List.Nodup.map_on ?_ (dfGrouped_nodup df)
  intro s hs s' hs' hf
  simp only [Function.comp, Prod.mk.injEq] at hf
  obtain ⟨hfu, hfi⟩ := hf
  have hsu : s.user_id ∈ uniqueUsers (dfGrouped df) :=
    mem_uniqFirst.mpr (List.mem_map_of_mem _ hs)
  have hsu' : s'.user_id ∈ uniqueUsers (dfGrouped df) :=
    mem_uniqFirst.mpr (List.mem_map_of_mem _ hs')
  have hsi : s.object_id ∈ uniqueItems (dfGrouped df) :=
    mem_uniqFirst.mpr (List.mem_map_of_mem _ hs)
  have hsi' : s'.object_id ∈ uniqueItems (dfGrouped df) :=
    mem_uniqFirst.mpr (List.mem_map_of_mem _ hs')
  obtain ⟨k1, hk1, hk1s⟩ := user_idx_lookup_of_mem hsu
  obtain ⟨k2, hk2, hk2s⟩ := user_idx_lookup_of_mem hsu'
  obtain ⟨m1, hm1, hm1s⟩ := item_idx_lookup_of_mem hsi
  obtain ⟨m2, hm2, hm2s⟩ := item_idx_lookup_of_mem hsi'
  rw [hk1, hk2] at hfu
  rw [hm1, hm2] at hfi
  simp only [Option.getD_some] at hfu hfi
  subst hfu
  subst hfi
  rw [hk1s] at hk2s
  rw [hm1s] at hm2s
  have huser : s.user_id = s'.user_id := Option.some.inj hk2s
  have hitem : s.object_id = s'.object_id := Option.some.inj hm2s
  exact List.inj_on_of_nodup_map (dfGrouped_pairKeys_nodup df) hs hs'
    (by rw [huser, hitem])

/-- C9: the aggregation is independent of the order of the input rows (a
permuted table yields the identical aggregated dataframe), an entry for
(u, i) with score q is present exactly when the pair has at least one
filtered event and q is the sum of the decay weights of exactly that pair's
events; the matrix has shape (number of unique users, number of unique
items) and one nonzero (positive) entry per aggregated pair at pairwise
distinct coordinates. -/
theorem C9_aggregation_and_matrix (t t' : List RawRow) (hperm : t.Perm t') :
    aggregated t' = aggregated t
    ∧ (∀ u i q, (⟨u, i, q⟩ : ScoreEntry) ∈ aggregated t ↔
        ((u, i) ∈ (queryFilter t).map pairKey ∧ q = pairScore (queryFilter t) (u, i)))
    ∧ (load_and_process t).2 = buildMatrix (aggregated t)
    ∧ (buildMatrix (aggregated t)).rows = ((queryFilter t).map (·.user_id)).toFinset.card
    ∧ (buildMatrix (aggregated t)).cols = ((queryFilter t).map (·.object_id)).toFinset.card
    ∧ (buildMatrix (aggregated t)).entries.length = (aggregated t).length
    ∧ ((buildMatrix (aggregated t)).entries.map (fun e => (e.1, e.2.1))).Nodup
    ∧ ∀ e ∈ (buildMatrix (aggregated t)).entries, 0 < e.2.2 := by
  refine ⟨?_, ?_, ?_, ?_, ?_, ?_, ?_, ?_⟩
  · exact (dfGrouped_eq_of_perm (hperm.filter _)).symm
  · intro u i q
    exact mem_dfGrouped
  · rw [load_and_process_eq]
  · exact buildMatrix_rows_card (queryFilter t)
  · exact buildMatrix_cols_card (queryFilter t)
  · exact List.length_map _ _
  · exact buildMatrix_positions_nodup (queryFilter t)
  · intro e he
    have he1 : e ∈ (aggregated t).map (fun s =>
        ((alookup (user_id_to_idx (aggregated t)) s.user_id).getD 0,
         (alookup (item_id_to_idx (aggregated t)) s.object_id).getD 0, s.score)) := he
    obtain ⟨s, hs, rfl⟩ := List.mem_map.mp he1
    exact dfGrouped_score_pos hs

/-- C9 (witness): instantiation at a concrete two-row table and its
reversal. -/
theorem C9_witness : aggregated (rowsTie.reverse) = aggregated rowsTie :=
  (C9_aggregation_and_matrix rowsTie rowsTie.reverse (by decide)).1

/-! ### No duplicates, only batch-local ids (claim C10) -/

theorem userHistoryIndex_nodup (df : List RawRow) (u : ℕ) :
    (userHistoryIndex (dfGrouped df) u).Nodup := by
  rw [userHistoryIndex]
  have hperm := (List.perm_insertionSort leUserScore (dfGrouped df)).map
    (fun s : ScoreEntry => (s.user_id, s.object_id))
  have hpairs : ((sortedDf (dfGrouped df)).map (fun s => (s.user_id, s.object_id))).Nodup :=
    hperm.nodup_iff.mpr (dfGrouped_pairKeys_nodup df)
  have hfp : (((sortedDf (dfGrouped df)).filter (fun e => decide (e.user_id = u))).map
      (fun s => (s.user_id, s.object_id))).Nodup :=
    hpairs.sublist ((List.filter_sublist _).map _)
  refine List.Nodup.map_on ?_ (List.Nodup.of_map _ hfp)
  intro x hx y hy hxy
  have hxu : x.user_id = u := of_decide_eq_true (List.mem_filter.mp hx).2
  have hyu : y.user_id = u := of_decide_eq_true (List.mem_filter.mp hy).2
  refine List.inj_on_of_nodup_map hfp hx hy ?_
  show (x.user_id, x.object_id) = (y.user_id, y.object_id)
  rw [Prod.mk.injEq]
  exact ⟨hxu.trans hyu.symm, hxy⟩

theorem userHistoryIndex_subset (df : List RawRow) (u : ℕ) :
    userHistoryIndex (dfGrouped df) u ⊆ (dfGrouped df).map (·.object_id) := by
  intro a ha
  rw [userHistoryIndex] at ha
  obtain ⟨s, hs, rfl⟩ := List.mem_map.mp ha
  have hmem : s ∈ sortedDf (dfGrouped df) := (List.mem_filter.mp hs).1
  exact List.mem_map_of_mem _
    ((List.perm_insertionSort leUserScore _).mem_iff.mp hmem)

theorem modelRecommend_nodup (iF : List (List ℚ)) (uvec : List ℚ) (row : ℕ → ℚ)
    (N : ℕ) (fl : Bool) : (modelRecommend iF uvec row N fl).Nodup := by
  simp only [modelRecommend]
  refine List.Nodup.sublist (List.take_sublist _ _) ?_
  have hperm := (List.perm_insertionSort leScoreDesc
    (((List.range iF.length).filter (fun j => !fl || decide (row j = 0))).map
      (fun j => (j, dotQ uvec (iF.getD j []))))).map (fun x : ℕ × ℚ => x.1)
  refine hperm.nodup_iff.mpr ?_
  rw [List.map_map]
  have hc : ((fun x : ℕ × ℚ => x.1) ∘ fun j => (j, dotQ uvec (iF.getD j [])))
      = fun j : ℕ => j := rfl
  rw [hc, List.map_id']
  exact (List.nodup_range _).filter _

theorem mem_modelRecommend_mem_range {iF : List (List ℚ)} {uvec : List ℚ}
    {row : ℕ → ℚ} {N j : ℕ} {fl : Bool}
    (h : j ∈ modelRecommend iF uvec row N fl) : j ∈ List.range iF.length := by
  simp only [modelRecommend] at h
  obtain ⟨p, hmem, rfl⟩ := List.mem_map.mp (List.mem_of_mem_take h)
  have h2 := (List.perm_insertionSort leScoreDesc _).mem_iff.mp hmem
  obtain ⟨j2, hj2, he⟩ := List.mem_map.mp h2
  obtain rfl := he
  exact (List.mem_filter.mp hj2).1

theorem modelSimilarItems_nodup (iF : List (List ℚ)) (itemIdx N : ℕ) :
    (modelSimilarItems iF itemIdx N).Nodup := by
  simp only [modelSimilarItems]
  refine List.Nodup.sublist (List.take_sublist _ _) ?_
  have hperm := (List.perm_insertionSort leScoreDesc
    ((List.range iF.length).map
      (fun j => (j, dotQ (iF.getD itemIdx []) (iF.getD j []))))).map (fun x : ℕ × ℚ => x.1)
  refine hperm.nodup_iff.mpr ?_
  rw [List.map_map]
  have hc : ((fun x : ℕ × ℚ => x.1) ∘ fun j => (j, dotQ (iF.getD itemIdx []) (iF.getD j [])))
      = fun j : ℕ => j := rfl
  rw [hc, List.map_id']
  exact List.nodup_range _

theorem item_idx_to_id_inj {dfg : List ScoreEntry} {x x' y : ℕ}
    (hx : alookup (item_idx_to_id dfg) x = some y)
    (hx' : alookup (item_idx_to_id dfg) x' = some y) : x = x' :=
  getElem?_inj_of_nodup (nodup_uniqFirst _) (item_idx_to_id_spec hx)
    (item_idx_to_id_spec hx')

theorem optMapAll_item_nodup {dfg : List ScoreEntry} {ids recs : List ℕ}
    (hopt : optMapAll (fun j => alookup (item_idx_to_id dfg) j) ids = some recs)
    (hids : ids.Nodup) : recs.Nodup :=
  optMapAll_nodup hopt hids (fun _ _ _ _ _ hx hx' => item_idx_to_id_inj hx hx')

theorem optMapAll_item_subset {dfg : List ScoreEntry} {ids recs : List ℕ}
    (hopt : optMapAll (fun j => alookup (item_idx_to_id dfg) j) ids = some recs) :
    recs ⊆ dfg.map (·.object_id) := by
  intro a ha
  obtain ⟨j, _, hj⟩ := optMapAll_mem hopt ha
  have := item_idx_to_id_spec hj
  exact mem_uniqFirst.mp (mem_of_getElem?_opt this)

theorem popularItems_nodup (srt : List (ℕ × ℚ) → List (ℕ × ℚ))
    (hsrt : IsDescValueSort srt) (dfg : List ScoreEntry) :
    (popularItems srt dfg).Nodup := by
  rw [popularItems]
  have hperm := ((hsrt (itemTotals dfg)).1).map (fun x : ℕ × ℚ => x.1)
  refine hperm.nodup_iff.mpr ?_
  rw [itemTotals, List.map_map]
  have hc : ((fun x : ℕ × ℚ => x.1) ∘ fun i =>
      (i, ((dfg.filter (fun e => decide (e.object_id = i))).map (·.score)).sum))
      = fun i : ℕ => i := rfl
  rw [hc, List.map_id']
  exact (List.perm_insertionSort _ _).nodup_iff.mpr (nodup_uniqFirst _)

theorem popularItems_subset (srt : List (ℕ × ℚ) → List (ℕ × ℚ))
    (hsrt : IsDescValueSort srt) (dfg : List ScoreEntry) :
    popularItems srt dfg ⊆ dfg.map (·.object_id) := by
  intro a ha
  rw [popularItems] at ha
  obtain ⟨p, hp, rfl⟩ := List.mem_map.mp ha
  have hp2 : p ∈ itemTotals dfg := ((hsrt (itemTotals dfg)).1).mem_iff.mp hp
  rw [itemTotals] at hp2
  obtain ⟨i, hi, rfl⟩ := List.mem_map.mp hp2
  exact mem_uniqFirst.mp ((List.mem_insertionSort _).mp hi)

/-- C10: every list the pipeline engine returns — history, discovery,
related and popular (the latter under any admissible realisation of the
popularity argsort) — is free of duplicate item ids, and every id in it is
an object_id of the current batch's aggregated data (equivalently, a value
of the loader's index-to-id item map). -/
theorem C10_outputs_nodup_and_batch_local (t : List RawRow) (uF iF : ℕ → List ℚ)
    (srt : List (ℕ × ℚ) → List (ℕ × ℚ)) (hsrt : IsDescValueSort srt)
    (u i limit : ℕ) :
    ((pipelineEngine t uF iF).get_history_rec u).Nodup
    ∧ (pipelineEngine t uF iF).get_history_rec u ⊆ batchItems t
    ∧ ((pipelineEngine t uF iF).get_discovery_rec u).Nodup
    ∧ (pipelineEngine t uF iF).get_discovery_rec u ⊆ batchItems t
    ∧ ((pipelineEngine t uF iF).get_related_items i).2.Nodup
    ∧ ((pipelineEngine t uF iF).get_related_items i).2 ⊆ batchItems t
    ∧ ((pipelineEngine t uF iF).get_popular_items srt limit).Nodup
    ∧ (pipelineEngine t uF iF).get_popular_items srt limit ⊆ batchItems t := by
  have ht : (pipelineEngine t uF iF).is_trained = true := by rw [pipelineEngine_def]
  have hmx : (pipelineEngine t uF iF).user_items_matrix
      = some (buildMatrix (aggregated t)) := by rw [pipelineEngine_def]
  have hum : (pipelineEngine t uF iF).user_map = user_id_to_idx (aggregated t) := by
    rw [pipelineEngine_def]
  have him : (pipelineEngine t uF iF).item_inv_map = item_idx_to_id (aggregated t) := by
    rw [pipelineEngine_def]
  have hdf : (pipelineEngine t uF iF).history_df = aggregated t := by
    rw [pipelineEngine_def]
  have hhist : (pipelineEngine t uF iF).get_history_rec u
      = (userHistoryIndex (aggregated t) u).take REC_HISTORY_COUNT := by
    rw [Engine.get_history_rec, hdf]
  have hpop : (pipelineEngine t uF iF).get_popular_items srt limit
      = (popularItems srt (aggregated t)).take limit := by
    rw [Engine.get_popular_items, hdf]
  refine ⟨?_, ?_, ?_, ?_, ?_, ?_, ?_, ?_⟩
  · rw [hhist]
    exact (userHistoryIndex_nodup (queryFilter t) u).sublist (List.take_sublist _ _)
  · rw [hhist]
    exact fun a ha =>
      userHistoryIndex_subset (queryFilter t) u (List.mem_of_mem_take ha)
  · rcases halo : alookup (user_id_to_idx (aggregated t)) u with _ | uidx
    · rw [get_discovery_rec_none (by rw [hum, halo])]
      exact List.nodup_nil
    · rw [get_discovery_rec_eq ht hmx (by rw [hum, halo]), him]
      rcases hopt : optMapAll (fun j => alookup (item_idx_to_id (aggregated t)) j)
          (modelRecommend (pipelineEngine t uF iF).itemFactors
            ((pipelineEngine t uF iF).userFactors.getD uidx [])
            (fun j => (buildMatrix (aggregated t)).entry uidx j)
            REC_DISCOVERY_COUNT true) with _ | recs
      · exact List.nodup_nil
      · rw [Option.getD_some]
        exact optMapAll_item_nodup hopt (modelRecommend_nodup _ _ _ _ _)
  · rcases halo : alookup (user_id_to_idx (aggregated t)) u with _ | uidx
    · rw [get_discovery_rec_none (by rw [hum, halo])]
      exact List.nil_subset _
    · rw [get_discovery_rec_eq ht hmx (by rw [hum, halo]), him]
      rcases hopt : optMapAll (fun j => alookup (item_idx_to_id (aggregated t)) j)
          (modelRecommend (pipelineEngine t uF iF).itemFactors
            ((pipelineEngine t uF iF).userFactors.getD uidx [])
            (fun j => (buildMatrix (aggregated t)).entry uidx j)
            REC_DISCOVERY_COUNT true) with _ | recs
      · exact List.nil_subset _
      · rw [Option.getD_some]
        exact optMapAll_item_subset hopt
  · rcases halo : alookup ((pipelineEngine t uF iF).itemIdMapCache.getD
        (invertMap (pipelineEngine t uF iF).item_inv_map)) i with _ | itemIdx
    · rw [get_related_items_snd_none halo]
      exact List.nodup_nil
    · rw [get_related_items_snd_eq ht halo, him]
      rcases hopt : optMapAll (fun j => alookup (item_idx_to_id (aggregated t)) j)
          ((modelSimilarItems (pipelineEngine t uF iF).itemFactors itemIdx
            (REC_RELATED_COUNT + 1)).filter (fun j => decide (j ≠ itemIdx)))
          with _ | recs
      · exact List.nodup_nil
      · rw [Option.getD_some]
        exact (optMapAll_item_nodup hopt
          ((modelSimilarItems_nodup _ _ _).filter _)).sublist (List.take_sublist _ _)
  · rcases halo : alookup ((pipelineEngine t uF iF).itemIdMapCache.getD
        (invertMap (pipelineEngine t uF iF).item_inv_map)) i with _ | itemIdx
    · rw [get_related_items_snd_none halo]
      exact List.nil_subset _
    · rw [get_related_items_snd_eq ht halo, him]
      rcases hopt : optMapAll (fun j => alookup (item_idx_to_id (aggregated t)) j)
          ((modelSimilarItems (pipelineEngine t uF iF).itemFactors itemIdx
            (REC_RELATED_COUNT + 1)).filter (fun j => decide (j ≠ itemIdx)))
          with _ | recs
      · exact List.nil_subset _
      · rw [Option.getD_some]
        exact fun a ha => optMapAll_item_subset hopt (List.mem_of_mem_take ha)
  · rw [hpop]
    exact (popularItems_nodup srt hsrt (aggregated t)).sublist (List.take_sublist _ _)
  · rw [hpop]
    exact fun a ha =>
      popularItems_subset srt hsrt (aggregated t) (List.mem_of_mem_take ha)

/-- C10 (witness): the popular conjuncts instantiated on the batch `rowsA`
at the small-array realisation of the popularity sort. -/
theorem C10_witness :
    ((pipelineEngine rowsA uFw iFw).get_popular_items npSmallSortDesc 3).Nodup
    ∧ (pipelineEngine rowsA uFw iFw).get_popular_items npSmallSortDesc 3
        ⊆ batchItems rowsA :=
  ⟨(C10_outputs_nodup_and_batch_local rowsA uFw iFw npSmallSortDesc
      npSmallSortDesc_isDesc 1 100 3).2.2.2.2.2.2.1,
   (C10_outputs_nodup_and_batch_local rowsA uFw iFw npSmallSortDesc
      npSmallSortDesc_isDesc 1 100 3).2.2.2.2.2.2.2⟩

/-- C2 (witness): on the batch `rowsA` (user 1 visited item 100; user 2
visited items 100 and 200) with unit factors, user 1's discovery list is
[200], and the theorem instantiates to: 200 is not in user 1's interaction
set. -/
theorem C2_witness : 200 ∉ interactedIds (aggregated rowsA) 1 :=
  C2_discovery_excludes_interacted rowsA uFw iFw 1 200 (by
    norm_num [pipelineEngine, Engine.init, Engine.train, Engine.get_discovery_rec,
      load_and_process_eq, aggregated, dfGrouped, groupKeys, uniqFirst, pairKey, pairScore,
      queryFilter, eventWeight, TIME_DECAY_RATE, TIME_DECAY_WINDOW, uniqueUsers,
      uniqueItems, user_id_to_idx, item_id_to_idx, item_idx_to_id, enumFromN, alookup,
      buildMatrix, Csr.entry, modelRecommend, dotQ, optMapAll, leScoreDesc, leLexNat,
      List.insertionSort, List.orderedInsert, REC_DISCOVERY_COUNT, rowsA, uFw, iFw,
      List.range_succ, List.range_zero])

end RecSys
